import Mathlib

/-!
# A shallow embedding of `src/common/z-file.c`

The file models the POSIX configuration of `z-file.c` (`HAVE_STAT` and
`HAVE_MKDIR` defined, `WINDOWS` undefined).  The `UNIX` switch of
`path_process` and `path_build` is a parameter, and so is `USE_SDL_RWOPS` where
its two branches differ, in `file_open` and `file_read` and so in `file_copy`;
`file_readc`, `file_skip`, `file_write` and `file_close` do the same in both
branches.

Conventions.
* A byte is a `Nat`; a C string is the list of its bytes before the
  terminating NUL.
* `size_t` arithmetic is arithmetic on `Nat` modulo `SIZE_MOD = 2 ^ 64`.
* Code that can touch memory outside an object returns an `Outcome`:
  `fault` stands for such an access, `nofuel` for a loop budget that ran out.
-/

namespace ZFile

/-! ## Machine model -/

/-- Modulus of `size_t` arithmetic, `2 ^ 64`. -/
def SIZE_MOD : Nat := 18446744073709551616

/-- What running a piece of C code gives: a value, an access outside an
object (`fault`), or an exhausted loop budget (`nofuel`). -/
inductive Outcome (α : Type) where
  | ok (a : α)
  | fault
  | nofuel
  deriving DecidableEq, Repr

/-- Modelled from the spec: the platform separator constant.  The macro
`PATH_SEP` is defined outside `z-file.c`; on the POSIX build it is `"/"`, and
`PATH_SEPC` is its first byte. -/
def PATH_SEPC : Nat := 47

/-- The string `PATH_SEP` on the POSIX build, `"/"`. -/
def PATH_SEP : List Nat := [47]

/-- Read of `s[i]` for a C string `s`: a byte of the string, the terminating NUL
at index `strlen(s)`, and an access outside the object anywhere else. -/
def str_at (s : List Nat) (i : Nat) : Outcome Nat :=
  if i < s.length then Outcome.ok (s.getD i 0)
  else if i = s.length then Outcome.ok 0
  else Outcome.fault

/-! ## `path_filename_index` -/

/-- The loop `for (i = strlen(path) - 1; i >= 0; i--)` of `path_filename_index`.
`i` is a `size_t`, so the test `i >= 0` holds on every iteration and `i--` at
`0` wraps to `SIZE_MOD - 1`. -/
def path_filename_index_loop (path : List Nat) : Nat → Nat → Outcome Nat
  | 0, _ => Outcome.nofuel
  | fuel + 1, i =>
    match str_at path i with
    | Outcome.ok c =>
      if c = PATH_SEPC then Outcome.ok ((i + 1) % SIZE_MOD)
      else path_filename_index_loop path fuel ((i + SIZE_MOD - 1) % SIZE_MOD)
    | Outcome.fault => Outcome.fault
    | Outcome.nofuel => Outcome.nofuel

/-- Embedding of `path_filename_index`.  The loop visits at most
`strlen(path)` bytes of the string and one index beyond, so the budget
`strlen(path) + 1` always leads to a result. -/
def path_filename_index (path : List Nat) : Outcome Nat :=
  if path.length = 0 then Outcome.ok 0
  else path_filename_index_loop path (path.length + 1) (path.length - 1)

/-- The bytes of `"noslash"`. -/
def str_noslash : List Nat := [110, 111, 115, 108, 97, 115, 104]

/-- The bytes of `"/a/b"`. -/
def str_slash_a_slash_b : List Nat := [47, 97, 47, 98]

/-! ## `path_process` and `path_build` -/

/-- Modelled from the spec: `strnfcat` of `z-form.c`, which is not under
`src/`.  `strnfcat(buf, max, &end, fmt, ...)` appends the formatted text `s` at
offset `end` of a buffer of `max` bytes, cut so that the text and its NUL fit
(the bounded-length contract of the spec), and advances `end` by the number of
bytes stored; it does nothing when `end >= max`. -/
def strnfcat (buf : List Nat) (max cur_len : Nat) (s : List Nat) : List Nat × Nat :=
  if cur_len ≥ max then (buf, cur_len)
  else (buf.take cur_len ++ s.take (max - cur_len - 1),
        cur_len + Nat.min s.length (max - cur_len - 1))

/-- Modelled from the spec: `prefix(s, t)` of `z-util.c`, which is not under
`src/` (the leaf "starts with the path separator"): `s` starts with `t`. -/
def prefix_of (s t : List Nat) : Bool := t.isPrefixOf s

/-- Modelled from the spec: `suffix(s, t)` of `z-util.c`, which is not under
`src/` (the base "already ends with" the separator): `s` ends with `t`. -/
def suffix (s t : List Nat) : Bool := t.isSuffixOf s

/-- The C library's `strstr(hay, needle)`: the offset of the first occurrence
of `needle` in `hay`. -/
def strstr : List Nat → List Nat → Option Nat
  | [], needle => if needle = [] then some 0 else none
  | c :: cs, needle =>
    if needle.isPrefixOf (c :: cs) = true then some 0
    else (strstr cs needle).map (fun k => k + 1)

/-- The system user database as `path_process` sees it: `getpwnam name` and
`getpwuid(getuid())`, each giving the `pw_dir` of the entry found. -/
structure UserDb where
  getpwnam : List Nat → Option (List Nat)
  getpwuid : Option (List Nat)

/-- The lookup `pw = username[0] ? getpwnam(username) : getpwuid(getuid())`. -/
def lookup_user (db : UserDb) (username : List Nat) : Option (List Nat) :=
  if username = [] then db.getpwuid else db.getpwnam username

/-- The end of the `~` branch of `path_process`: look the user up and copy
`pw_dir`, `PATH_SEP` and, when there is one, the text `s` from the separator on. -/
def path_process_home (db : UserDb) (buf : List Nat) (len cur_len : Nat)
    (username : List Nat) (s : Option (List Nat)) : List Nat × Nat :=
  match lookup_user db username with
  | none => (buf, cur_len)
  | some pw_dir =>
    let r := strnfcat buf len cur_len (pw_dir ++ PATH_SEP)
    match s with
    | some t => strnfcat r.1 len r.2 t
    | none => r

/-- Embedding of `path_process(buf, len, &cur_len, path)`; `unix` says whether
`UNIX` is defined.  The result is the string in `buf` and `cur_len`. -/
def path_process (unix : Bool) (db : UserDb) (buf : List Nat) (len cur_len : Nat)
    (path : List Nat) : List Nat × Nat :=
  if unix = true ∧ path.head? = some 126 then
    match strstr (path.drop 1) PATH_SEP with
    | some k =>
      if k ≥ 128 then (buf, cur_len)
      else path_process_home db buf len cur_len ((path.drop 1).take k)
        (some ((path.drop 1).drop k))
    | none => path_process_home db buf len cur_len (path.drop 1) none
  else strnfcat buf len cur_len path

/-- Embedding of `path_build(buf, len, base, leaf)`: the string left in `buf`
and the returned length.  A null pointer and the empty string take the same
branches and are both `[]`. -/
def path_build (unix : Bool) (db : UserDb) (len : Nat) (base leaf : List Nat) :
    List Nat × Nat :=
  if leaf = [] then
    if base ≠ [] then path_process unix db [] len 0 base else ([], 0)
  else if base = [] ∨ prefix_of leaf PATH_SEP = true ∨ (unix = true ∧ leaf.head? = some 126) then
    path_process unix db [] len 0 leaf
  else
    let r1 := path_process unix db [] len 0 base
    let r2 := if suffix base PATH_SEP = true then r1 else strnfcat r1.1 len r1.2 PATH_SEP
    path_process unix db r2.1 len r2.2 leaf

/-- A user database with no entry. -/
def db_empty : UserDb := { getpwnam := fun _ => none, getpwuid := none }

/-- A user database in which `bob` has the home directory `/home/bob` and the
invoking user the home directory `/home/me`. -/
def db_bob : UserDb :=
  { getpwnam := fun n => if n = [98, 111, 98] then some [47, 104, 111, 109, 101, 47, 98, 111, 98]
      else none,
    getpwuid := some [47, 104, 111, 109, 101, 47, 109, 101] }

/-- A user database whose only named entry is the user with the 128-byte name
`aa...a`, with home directory `/h`. -/
def db_long : UserDb :=
  { getpwnam := fun n => if n = List.replicate 128 97 then some [47, 104] else none,
    getpwuid := none }

/-! ## Files and handles -/

/-- The enumeration `file_mode` of `z-file.h`: the open modes Write, Read,
Append and ReadWrite. -/
inductive file_mode where
  | MODE_WRITE
  | MODE_READ
  | MODE_APPEND
  | MODE_READWRITE
  deriving DecidableEq, Repr

/-- The enumeration `file_type` of `z-file.h`, the purpose of a file;
`FTYPE_SAVE` marks a save file. -/
inductive file_type where
  | FTYPE_TEXT
  | FTYPE_SAVE
  | FTYPE_RAW
  | FTYPE_HTML
  deriving DecidableEq, Repr

/-- The regular files of the file system: the content stored under the name
of each file, `none` for a name that no file has.  `file_open` names a file by
the absolute path that the system resolves its path to.  Operations on it
never fail with an I/O error. -/
abbrev FileSys := List Nat → Option (List Nat)

/-- The structure `ang_file`: the stream `fh` is the file named `fname`
together with the stream offset `pos`. -/
structure ang_file where
  fname : List Nat
  mode : file_mode
  pos : Nat
  deriving DecidableEq, Repr

/-- Embedding of `file_readc` (`fgetc`): the byte at the stream offset, which
then moves on by one; `none` at end of file. -/
def file_readc (w : FileSys) (f : ang_file) : Option (Nat × ang_file) :=
  match w f.fname with
  | none => none
  | some data =>
    match data[f.pos]? with
    | none => none
    | some b => some (b, { f with pos := f.pos + 1 })

/-- Embedding of `file_skip` (`fseek(fh, bytes, SEEK_CUR) == 0`): the offset
moves by `bytes`; a move before the start of the file fails and leaves the
offset alone. -/
def file_skip (f : ang_file) (bytes : Int) : Bool × ang_file :=
  if 0 ≤ (f.pos : Int) + bytes then (true, { f with pos := ((f.pos : Int) + bytes).toNat })
  else (false, f)

/-! ## `file_getl` -/

/-- The macro `TAB_COLUMNS`. -/
def TAB_COLUMNS : Nat := 4

/-- Store `buf[i] = v`; a store at or beyond the end of the buffer is an access
outside the object. -/
def buf_write (buf : List Nat) (i v : Nat) : Outcome (List Nat) :=
  if i < buf.length then Outcome.ok (buf.set i v) else Outcome.fault

/-- The inner loop `while (i < tabstop) buf[i++] = ' ';` of `file_getl`, run
for `tabstop - i` iterations. -/
def file_getl_fill : Nat → List Nat → Nat → Outcome (List Nat × Nat)
  | 0, buf, i => Outcome.ok (buf, i)
  | n + 1, buf, i =>
    match buf_write buf i 32 with
    | Outcome.ok b => file_getl_fill n b (i + 1)
    | Outcome.fault => Outcome.fault
    | Outcome.nofuel => Outcome.nofuel

/-- The statements `buf[i] = 0; return r;` of `file_getl`. -/
def file_getl_finish (buf : List Nat) (i : Nat) (r : Bool) (f : ang_file) :
    Outcome (Bool × List Nat × ang_file) :=
  match buf_write buf i 0 with
  | Outcome.ok b => Outcome.ok (r, b, f)
  | Outcome.fault => Outcome.fault
  | Outcome.nofuel => Outcome.nofuel

/-- The loop `while (i < max_len)` of `file_getl` together with the statements
after it.  The state is the handle, the buffer, the column `i` and `seen_cr`;
the result is the returned flag, the buffer and the handle. -/
def file_getl_loop (w : FileSys) (len max_len : Nat) :
    Nat → ang_file → List Nat → Nat → Bool → Outcome (Bool × List Nat × ang_file)
  | 0, _, _, _, _ => Outcome.nofuel
  | fuel + 1, f, buf, i, seen_cr =>
    if i < max_len then
      match file_readc w f with
      | none => file_getl_finish buf i (if i = 0 then false else true) f
      | some (c, f1) =>
        if c = 13 then file_getl_loop w len max_len fuel f1 buf i true
        else if seen_cr = true ∧ c ≠ 10 then
          file_getl_finish buf i true (file_skip f1 (-1)).2
        else if c = 10 then file_getl_finish buf i true f1
        else if c = 9 then
          let tabstop := ((i + TAB_COLUMNS) % SIZE_MOD) / TAB_COLUMNS * TAB_COLUMNS
          if tabstop ≥ len then file_getl_finish buf i true f1
          else
            match file_getl_fill (tabstop - i) buf i with
            | Outcome.ok (b, j) => file_getl_loop w len max_len fuel f1 b j seen_cr
            | Outcome.fault => Outcome.fault
            | Outcome.nofuel => Outcome.nofuel
        else
          match buf_write buf i c with
          | Outcome.ok b => file_getl_loop w len max_len fuel f1 b (i + 1) seen_cr
          | Outcome.fault => Outcome.fault
          | Outcome.nofuel => Outcome.nofuel
    else file_getl_finish buf i true f

/-- Number of bytes between the stream offset and the end of the file. -/
def file_remaining (w : FileSys) (f : ang_file) : Nat :=
  match w f.fname with
  | none => 0
  | some data => data.length - f.pos

/-- Embedding of `file_getl(f, buf, len)`; `buf` is the caller's array.  Every
iteration that does not return reads one byte, so the budget is the number of
unread bytes plus one.  `max_len = len - 1` is computed in `size_t`. -/
def file_getl (w : FileSys) (f : ang_file) (buf : List Nat) (len : Nat) :
    Outcome (Bool × List Nat × ang_file) :=
  file_getl_loop w len ((len + SIZE_MOD - 1) % SIZE_MOD) (file_remaining w f + 1) f buf 0 false

/-- Tab expansion as the specification words it: a tab becomes 1 to 4 spaces so
that the column reaches the next multiple of 4, every other byte is copied.
`col` is the column of the first byte. -/
def spec_expand_tabs (col : Nat) : List Nat → List Nat
  | [] => []
  | c :: cs =>
    if c = 9 then
      List.replicate (4 - col % 4) 32 ++ spec_expand_tabs (col + (4 - col % 4)) cs
    else c :: spec_expand_tabs (col + 1) cs

/-- A file system that holds one file, named `[102]` ("f"), with content
`data`. -/
def one_file (data : List Nat) : FileSys :=
  fun p => if p = [102] then some data else none

/-- A read handle on the file of `one_file` at offset `pos`. -/
def handle_at (pos : Nat) : ang_file :=
  { fname := [102], mode := file_mode.MODE_READ, pos := pos }

/-! ## Directories: `dir_exists` and `dir_create` -/

/-- The directories of the file system other than the root, each as the list
of its names from the root.  The root always exists, and the list holds the
parent of each of its directories.  There are no symbolic links and no
permissions, every directory can be searched and written; a relative path is
resolved from the root. -/
structure DirSys where
  dirs : List (List (List Nat))
  deriving DecidableEq, Repr

/-- Splitting a path at its separators; `cur` is the component being read.
Empty components (a leading, doubled or trailing separator) are dropped, as in
path resolution. -/
def path_split_aux : List Nat → List Nat → List (List Nat)
  | [], cur => if cur = [] then [] else [cur]
  | c :: cs, cur =>
    if c = PATH_SEPC then
      if cur = [] then path_split_aux cs [] else cur :: path_split_aux cs []
    else path_split_aux cs (cur ++ [c])

/-- The components of a path. -/
def path_components (path : List Nat) : List (List Nat) :=
  path_split_aux path []

/-- Path resolution by the system: walking the components `cs` from the
directory `cur`.  The component `.` stays in the directory, `..` goes to its
parent (the root is its own parent), and any other name must be a directory
of `cur`.  The result is the directory reached, `none` when a component does
not resolve. -/
def dir_resolve (d : DirSys) : List (List Nat) → List (List Nat) → Option (List (List Nat))
  | cur, [] => some cur
  | cur, c :: cs =>
    if c = [46] then dir_resolve d cur cs
    else if c = [46, 46] then dir_resolve d cur.dropLast cs
    else if cur ++ [c] ∈ d.dirs then dir_resolve d (cur ++ [c]) cs
    else none

/-- Embedding of `dir_exists` with `HAVE_STAT`: `stat` succeeds and the entry
is a directory.  The empty path does not resolve. -/
def dir_exists (d : DirSys) (path : List Nat) : Bool :=
  if path = [] then false
  else (dir_resolve d [] (path_components path)).isSome

/-- The system call behind `my_mkdir(path, 0755)`: it returns 0 and creates the
directory exactly when the parent resolves and the target does not exist, and
-1 otherwise.  The empty path and the root fail, and so does a path whose last
component is `.` or `..`, which names a directory that is there already. -/
def my_mkdir (d : DirSys) (path : List Nat) : Int × DirSys :=
  if path = [] ∨ path_components path = [] then (-1, d)
  else
    match dir_resolve d [] (path_components path).dropLast with
    | none => (-1, d)
    | some parent =>
      if (path_components path).getLastD [] = [46]
          ∨ (path_components path).getLastD [] = [46, 46] then (-1, d)
      else if parent ++ [(path_components path).getLastD []] ∈ d.dirs then (-1, d)
      else (0, { dirs := d.dirs ++ [parent ++ [(path_components path).getLastD []]] })

/-- Modelled from the spec: `my_strcpy` of `z-util.c`, which is not under
`src/`.  `my_strcpy(buf, src, bufsize)` copies at most `bufsize - 1` bytes of
`src` and a terminating NUL into `buf` (the bounded copy the spec asks of every
write into caller storage).  `cap` is the size of the array `buf` really has: a
copy of more than `cap` bytes writes past it.  The result is the string left in
`buf`. -/
def my_strcpy (cap : Nat) (src : List Nat) (bufsize : Nat) : Outcome (List Nat) :=
  if bufsize = 0 then Outcome.ok []
  else if Nat.min src.length (bufsize - 1) + 1 ≤ cap then
    Outcome.ok (src.take (Nat.min src.length (bufsize - 1)))
  else Outcome.fault

/-- The loop `for (ptr = path; *ptr; ptr++)` of `dir_create` and the final
`return my_mkdir(path, 0755) == 0`.  `ptr` is the rest of the string together
with its offset `len = ptr - path`; the scratch array is `char buf[512]`. -/
def dir_create_walk (path : List Nat) : List Nat → Nat → DirSys → Outcome (Bool × DirSys)
  | [], _, d => Outcome.ok (decide ((my_mkdir d path).1 = 0), (my_mkdir d path).2)
  | c :: cs, len, d =>
    if c = PATH_SEPC then
      if len = 0 then dir_create_walk path cs (len + 1) d
      else if path.getD (len - 1) 0 = PATH_SEPC then dir_create_walk path cs (len + 1) d
      else if len - 1 > 512 then Outcome.ok (false, d)
      else
        match my_strcpy 512 path (len + 1) with
        | Outcome.ok buf =>
          if dir_exists d buf = true then dir_create_walk path cs (len + 1) d
          else if (my_mkdir d buf).1 ≠ 0 then Outcome.ok (false, (my_mkdir d buf).2)
          else dir_create_walk path cs (len + 1) (my_mkdir d buf).2
        | Outcome.fault => Outcome.fault
        | Outcome.nofuel => Outcome.nofuel
    else dir_create_walk path cs (len + 1) d

/-- Embedding of `dir_create` with `HAVE_STAT` and without `WINDOWS`. -/
def dir_create (d : DirSys) (path : List Nat) : Outcome (Bool × DirSys) :=
  if dir_exists d path = true then Outcome.ok (true, d)
  else dir_create_walk path path 0 d

/-- The absolute path with the components `segs`: a separator in front of each
component, so no doubled and no trailing separator. -/
def mkpath : List (List Nat) → List Nat
  | [] => []
  | s :: ss => 47 :: s ++ mkpath ss

/-- The components of `/tmp/x/y/z`. -/
def segs_tmp_x_y_z : List (List Nat) := [[116, 109, 112], [120], [121], [122]]

/-- Three components of 200 bytes `a` and the component `b`: the path
`/aa...a/aa...a/aa...a/b`, whose parent is 603 bytes long. -/
def segs_long : List (List Nat) :=
  [List.replicate 200 97, List.replicate 200 97, List.replicate 200 97, [98]]

/-- The components of `/a/.`. -/
def segs_a_dot : List (List Nat) := [[97], [46]]

/-- The path `/aa...a/b` whose first component has 511 bytes, so that its
parent is 512 bytes long. -/
def path_512 : List Nat := 47 :: List.replicate 511 97 ++ [47, 98]

/-! ## Opening, reading, writing and copying -/

/-- Embedding of `path_parse(buf, max, file)`: `my_strcpy(buf, file, max)` keeps
the first `max - 1` bytes of `file`. -/
def path_parse (max : Nat) (file : List Nat) : List Nat :=
  file.take (max - 1)

/-- The file system with the content of the file `p` set to `c`. -/
def fs_set (w : FileSys) (p c : List Nat) : FileSys :=
  fun q => if q = p then some c else w q

/-- The limit `NAME_MAX` of the file system on the length of a file name. -/
def NAME_MAX : Nat := 255

/-- The file that a path can name, as the system resolves it: the path is not
empty and does not end in a separator, its directory resolves, and its last
component is at most `NAME_MAX` bytes long and neither `.` nor `..` nor the
name of a directory.  The result is the absolute path of the file, the name
under which `FileSys` holds it; `none` stands for a path on which every open
fails. -/
def file_locate (d : DirSys) (path : List Nat) : Option (List Nat) :=
  if path = [] ∨ path.getLast? = some PATH_SEPC ∨ path_components path = [] then none
  else
    match dir_resolve d [] (path_components path).dropLast with
    | none => none
    | some parent =>
      if (path_components path).getLastD [] = [46]
          ∨ (path_components path).getLastD [] = [46, 46]
          ∨ ((path_components path).getLastD []).length > NAME_MAX then none
      else if parent ++ [(path_components path).getLastD []] ∈ d.dirs then none
      else some (mkpath (parent ++ [(path_components path).getLastD []]))

/-- The mode strings `"wb"`, `"rb"`, `"a+"` and `"r+b"` that `file_open` hands to
`fopen` and to `SDL_RWFromFile`. -/
inductive open_string where
  | wb
  | rb
  | a_plus
  | r_plus_b
  deriving DecidableEq, Repr

/-- The calls `fopen(path, m)` and `SDL_RWFromFile(path, m)`: the file opened,
if any, and the file system after the call.  `"wb"` creates the file or empties
it, `"rb"` and `"r+b"` need an existing file, `"a+"` creates a missing file. -/
def sys_fopen (d : DirSys) (w : FileSys) (path : List Nat) (m : open_string) :
    Option (List Nat) × FileSys :=
  match file_locate d path with
  | none => (none, w)
  | some key =>
    match m with
    | open_string.wb => (some key, fs_set w key [])
    | open_string.rb =>
      match w key with
      | some _ => (some key, w)
      | none => (none, w)
    | open_string.a_plus =>
      match w key with
      | some _ => (some key, w)
      | none => (some key, fs_set w key [])
    | open_string.r_plus_b =>
      match w key with
      | some _ => (some key, w)
      | none => (none, w)

/-- The call `open(path, O_CREAT | O_EXCL | O_WRONLY | O_BINARY, S_IRUSR |
S_IWUSR)` followed by `fdopen(fd, "wb")`: it fails when the file exists and
creates it, empty, otherwise. -/
def sys_open_excl (d : DirSys) (w : FileSys) (path : List Nat) :
    Option (List Nat) × FileSys :=
  match file_locate d path with
  | none => (none, w)
  | some key =>
    match w key with
    | some _ => (none, w)
    | none => (some key, fs_set w key [])

/-- The `switch (mode)` of the `USE_SDL_RWOPS` branch of `file_open`, which
picks the mode string `rwm` from `mode` alone. -/
def sdl_rwm (mode : file_mode) : open_string :=
  match mode with
  | file_mode.MODE_WRITE => open_string.wb
  | file_mode.MODE_READ => open_string.rb
  | file_mode.MODE_APPEND => open_string.a_plus
  | file_mode.MODE_READWRITE => open_string.r_plus_b

/-- The part of `file_open` that sets `f->fh`: `SDL_RWFromFile(buf, rwm)` with
`USE_SDL_RWOPS` (`sdl = true`), and the `switch (mode)` of the stdio branch
otherwise, where a write of a save file goes through `open` with `O_EXCL`. -/
def file_open_fh (sdl : Bool) (d : DirSys) (w : FileSys) (buf : List Nat)
    (mode : file_mode) (ftype : file_type) : Option (List Nat) × FileSys :=
  if sdl = true then sys_fopen d w buf (sdl_rwm mode)
  else
    match mode with
    | file_mode.MODE_WRITE =>
      if ftype = file_type.FTYPE_SAVE then sys_open_excl d w buf
      else sys_fopen d w buf open_string.wb
    | file_mode.MODE_READ => sys_fopen d w buf open_string.rb
    | file_mode.MODE_APPEND => sys_fopen d w buf open_string.a_plus
    | file_mode.MODE_READWRITE => sys_fopen d w buf open_string.r_plus_b

/-- Embedding of `file_open(fname, mode, ftype)`: the handle, if any, and the
file system after the call.  The path opened is `buf`, the first 1023 bytes of
`fname`.  The field `fname` of the handle names the file that the stream `fh`
is open on; the call of `file_open_hook` has no effect on the files. -/
def file_open (sdl : Bool) (d : DirSys) (w : FileSys) (fname : List Nat) (mode : file_mode)
    (ftype : file_type) : Option ang_file × FileSys :=
  match (file_open_fh sdl d w (path_parse 1024 fname) mode ftype).1 with
  | none => (none, (file_open_fh sdl d w (path_parse 1024 fname) mode ftype).2)
  | some key =>
    (some { fname := key, mode := mode, pos := 0 },
      (file_open_fh sdl d w (path_parse 1024 fname) mode ftype).2)

/-- Embedding of `file_close`: `fclose` succeeds. -/
def file_close (_f : ang_file) : Bool := true

/-- The bytes that a read of `n` bytes transfers: the up to `n` bytes that
follow the offset of the stream. -/
def file_read_bytes (w : FileSys) (f : ang_file) (n : Nat) : List Nat :=
  (((w f.fname).getD []).drop f.pos).take n

/-- Embedding of `file_read(f, buf, n)`: the returned count, the array `buf`
after the call and the handle.  No read error occurs.  In the stdio branch the
count is `-1` only when nothing was read and `ferror` is set, which does not
happen; in the `USE_SDL_RWOPS` branch (`sdl = true`) it is `(size_t)-1` when
nothing was read and `SDL_GetError()` is the empty string, which is the case at
the end of the file.  Bytes stored beyond the end of `buf` are an access
outside the array. -/
def file_read (sdl : Bool) (w : FileSys) (f : ang_file) (buf : List Nat) (n : Nat) :
    Outcome (Nat × List Nat × ang_file) :=
  if (file_read_bytes w f n).length > buf.length then Outcome.fault
  else
    Outcome.ok
      (if sdl = true ∧ (file_read_bytes w f n).length = 0 then SIZE_MOD - 1
        else (file_read_bytes w f n).length,
       file_read_bytes w f n ++ buf.drop (file_read_bytes w f n).length,
       { f with pos := f.pos + (file_read_bytes w f n).length })

/-- Embedding of `file_write(f, buf, n)`: whether all `n` bytes were
transferred, the file system and the handle.  Taking `n` bytes from an array
`buf` that holds fewer is an access outside the array.  A stream opened for
reading transfers nothing.  Otherwise the bytes are stored at the offset, after
a gap of zero bytes when the offset lies beyond the end of the file, or at the
end of the file in append mode. -/
def file_write (w : FileSys) (f : ang_file) (buf : List Nat) (n : Nat) :
    Outcome (Bool × FileSys × ang_file) :=
  if n > buf.length then Outcome.fault
  else if f.mode = file_mode.MODE_READ then Outcome.ok (decide (n = 0), w, f)
  else
    match w f.fname with
    | none => Outcome.ok (decide (n = 0), w, f)
    | some data =>
      if f.mode = file_mode.MODE_APPEND then
        Outcome.ok (true, fs_set w f.fname (data ++ buf.take n),
          { f with pos := data.length + n })
      else
        Outcome.ok (true,
          fs_set w f.fname (data.take f.pos ++ List.replicate (f.pos - data.length) 0
            ++ buf.take n ++ data.drop (f.pos + n)),
          { f with pos := f.pos + n })

/-- The loop `while ((n = file_read(sfile, buf, 1024)))` of `file_copy` with
its body `if (!file_write(dfile, buf, n)) break;`. -/
def file_copy_loop (sdl : Bool) :
    Nat → FileSys → ang_file → ang_file → List Nat → Outcome FileSys
  | 0, _, _, _, _ => Outcome.nofuel
  | fuel + 1, w, sfile, dfile, buf =>
    match file_read sdl w sfile buf 1024 with
    | Outcome.fault => Outcome.fault
    | Outcome.nofuel => Outcome.nofuel
    | Outcome.ok (n, buf1, sfile1) =>
      if n = 0 then Outcome.ok w
      else
        match file_write w dfile buf1 n with
        | Outcome.fault => Outcome.fault
        | Outcome.nofuel => Outcome.nofuel
        | Outcome.ok (r, w1, dfile1) =>
          if r = false then Outcome.ok w1
          else file_copy_loop sdl fuel w1 sfile1 dfile1 buf1

/-- The array `char buf[1024]` of `file_copy` before the first read. -/
def copy_buf : List Nat := List.replicate 1024 0

/-- Embedding of `file_copy(src, dst, ftype)`: the returned flag and the file
system after the call.  Every pass of the
loop that goes on reads at least one byte of the source, so the budget is the
number of unread source bytes plus one. -/
def file_copy (sdl : Bool) (d : DirSys) (w : FileSys) (src dst : List Nat)
    (ftype : file_type) : Outcome (Bool × FileSys) :=
  match file_open sdl d w src file_mode.MODE_READ ftype with
  | (none, w0) => Outcome.ok (false, w0)
  | (some sfile, w0) =>
    match file_open sdl d w0 dst file_mode.MODE_WRITE ftype with
    | (none, w1) => Outcome.ok (false, w1)
    | (some dfile, w1) =>
      match file_copy_loop sdl (file_remaining w1 sfile + 1) w1 sfile dfile copy_buf with
      | Outcome.ok w2 => Outcome.ok (true, w2)
      | Outcome.fault => Outcome.fault
      | Outcome.nofuel => Outcome.nofuel

/-- The result of `file_copy` as far as one file goes: the returned flag and
the content found under the name `p` afterwards. -/
def copy_result (r : Outcome (Bool × FileSys)) (p : List Nat) : Outcome (Bool × Option (List Nat)) :=
  match r with
  | Outcome.ok (b, w) => Outcome.ok (b, w p)
  | Outcome.fault => Outcome.fault
  | Outcome.nofuel => Outcome.nofuel

/-- The directory `/tmp` alone. -/
def dirs_tmp : DirSys := { dirs := [[[116, 109, 112]]] }

/-- The path `/tmp/s`. -/
def path_tmp_s : List Nat := [47, 116, 109, 112, 47, 115]

/-- The path `/tmp/t`. -/
def path_tmp_t : List Nat := [47, 116, 109, 112, 47, 116]

/-- A file system whose only file is `/tmp/s`, with the content `data`. -/
def fs_tmp_s (data : List Nat) : FileSys :=
  fun p => if p = path_tmp_s then some data else none

/-- The length of the C string held in `buf`: the number of bytes before the
first NUL (`strlen`). -/
def c_strlen (buf : List Nat) : Nat :=
  (buf.takeWhile (fun x => x != 0)).length

/-- Walking down from index `i` over bytes that are no separator ends in a
read outside the string. -/
theorem path_filename_index_loop_fault (path : List Nat)
    (hsep : ∀ c ∈ path, c ≠ PATH_SEPC) (hlen : path.length + 1 < SIZE_MOD) :
    ∀ (i fuel : Nat), i < path.length → i + 1 < fuel →
      path_filename_index_loop path fuel i = Outcome.fault := by
  have hS : SIZE_MOD = 18446744073709551616 := rfl
  intro i
  induction i with
  | zero =>
    intro fuel hi hf
    obtain ⟨g, rfl⟩ : ∃ g, fuel = g + 1 + 1 := ⟨fuel - 2, by omega⟩
    have hc : path.getD 0 0 ≠ PATH_SEPC := by
      apply hsep
      rw [List.getD_eq_getElem _ _ hi]
      exact List.getElem_mem _
    have hbig : ¬ (SIZE_MOD - 1 < path.length) := by omega
    have hne : SIZE_MOD - 1 ≠ path.length := by omega
    have hmod : (0 + SIZE_MOD - 1) % SIZE_MOD = SIZE_MOD - 1 := by
      simp [SIZE_MOD]
    simp only [path_filename_index_loop, str_at, hi, if_true, hc, if_false, hmod, hbig, hne]
  | succ n ih =>
    intro fuel hi hf
    obtain ⟨f, rfl⟩ : ∃ f, fuel = f + 1 := ⟨fuel - 1, by omega⟩
    have hc : path.getD (n + 1) 0 ≠ PATH_SEPC := by
      apply hsep
      rw [List.getD_eq_getElem _ _ hi]
      exact List.getElem_mem _
    have hmod : (n + 1 + SIZE_MOD - 1) % SIZE_MOD = n := by
      have : n + 1 + SIZE_MOD - 1 = n + SIZE_MOD := by omega
      rw [this, Nat.add_mod_right]
      exact Nat.mod_eq_of_lt (by omega)
    simp only [path_filename_index_loop, str_at, hi, if_true, hc, if_false, hmod]
    exact ih f (by omega) (by omega)

/-- For every non-empty path without a separator the scan of
`path_filename_index` leaves the string: the result is a fault, not `0`. -/
theorem path_filename_index_no_sep (path : List Nat) (hne : path ≠ [])
    (hsep : ∀ c ∈ path, c ≠ PATH_SEPC) (hlen : path.length + 1 < SIZE_MOD) :
    path_filename_index path = Outcome.fault := by
  have hpos : 0 < path.length := List.length_pos.mpr hne
  have h0 : path.length ≠ 0 := by omega
  simp only [path_filename_index, h0, if_false]
  exact path_filename_index_loop_fault path hsep hlen _ _ (by omega) (by omega)

/-- C1 (code defect): `path_filename_index` returns 0 on the empty path and 3
on `"/a/b"`, but on `"noslash"` the unsigned index wraps below zero and the scan
reads outside the string instead of returning 0. -/
theorem C1_path_filename_index_noslash :
    path_filename_index [] = Outcome.ok 0 ∧
    path_filename_index str_slash_a_slash_b = Outcome.ok 3 ∧
    path_filename_index str_noslash = Outcome.fault := by
  refine ⟨by decide, by decide, ?_⟩
  exact path_filename_index_no_sep str_noslash (by decide) (by decide)
    (by simp [str_noslash, SIZE_MOD])

/-! ### `file_getl`: basic facts -/

theorem buf_write_ok (buf : List Nat) (i v : Nat) (h : i < buf.length) :
    buf_write buf i v = Outcome.ok (buf.set i v) := by
  simp [buf_write, h]

theorem file_getl_finish_ok (buf : List Nat) (i : Nat) (r : Bool) (f : ang_file)
    (h : i < buf.length) :
    file_getl_finish buf i r f = Outcome.ok (r, buf.set i 0, f) := by
  simp [file_getl_finish, buf_write, h]

/-- A successful `file_readc` returns the byte at the offset and moves the
offset on by one. -/
theorem file_readc_some (w : FileSys) (f f1 : ang_file) (c : Nat)
    (h : file_readc w f = some (c, f1)) :
    f1 = { f with pos := f.pos + 1 } ∧ ∃ data, w f.fname = some data ∧ data[f.pos]? = some c := by
  unfold file_readc at h
  cases hw : w f.fname with
  | none => simp [hw] at h
  | some data =>
    simp only [hw] at h
    cases hd : data[f.pos]? with
    | none => simp [hd] at h
    | some b =>
      simp only [hd, Option.some.injEq, Prod.mk.injEq] at h
      exact ⟨h.2.symm, data, rfl, by rw [← h.1]; exact hd⟩

/-- A failed `file_readc` means the offset is at or beyond the end of the file. -/
theorem file_readc_none (w : FileSys) (f : ang_file) (data : List Nat)
    (hw : w f.fname = some data) (h : file_readc w f = none) : data.length ≤ f.pos := by
  unfold file_readc at h
  simp only [hw] at h
  cases hd : data[f.pos]? with
  | none => exact List.getElem?_eq_none_iff.mp hd
  | some b => simp [hd] at h

/-- Every successful `file_readc` shortens what is left of the stream. -/
theorem file_remaining_readc (w : FileSys) (f f1 : ang_file) (c : Nat)
    (h : file_readc w f = some (c, f1)) :
    file_remaining w f1 + 1 = file_remaining w f := by
  obtain ⟨rfl, data, hw, hd⟩ := file_readc_some w f f1 c h
  have hlt : f.pos < data.length := by
    rcases Nat.lt_or_ge f.pos data.length with h1 | h1
    · exact h1
    · rw [List.getElem?_eq_none_iff.mpr h1] at hd
      cases hd
  simp only [file_remaining, hw]
  omega

/-- The fill loop of the tab expansion stays inside the buffer when its last
column does. -/
theorem file_getl_fill_ok : ∀ (n : Nat) (buf : List Nat) (i : Nat), i + n ≤ buf.length →
    ∃ b, file_getl_fill n buf i = Outcome.ok (b, i + n) ∧ b.length = buf.length := by
  intro n
  induction n with
  | zero => intro buf i _; exact ⟨buf, rfl, rfl⟩
  | succ n ih =>
    intro buf i h
    have hi : i < buf.length := by omega
    obtain ⟨b, hb, hl⟩ := ih (buf.set i 32) (i + 1) (by simp; omega)
    refine ⟨b, ?_, by simpa using hl⟩
    simp only [file_getl_fill, buf_write_ok buf i 32 hi, hb]
    have : i + 1 + n = i + (n + 1) := by omega
    rw [this]

/-- Safety of the main loop: from a column `i ≤ len - 1` and with a budget
beyond the unread bytes, the loop returns, every store is inside the buffer
and a NUL is stored at an index `≤ len - 1`. -/
theorem file_getl_loop_safe (w : FileSys) (len : Nat) (hlen : 1 ≤ len) :
    ∀ (fuel : Nat) (f : ang_file) (buf : List Nat) (i : Nat) (seen : Bool),
      file_remaining w f < fuel → i ≤ len - 1 → buf.length = len →
      ∃ r b f1, file_getl_loop w len (len - 1) fuel f buf i seen = Outcome.ok (r, b, f1) ∧
        b.length = len ∧ ∃ k, k ≤ len - 1 ∧ b[k]? = some 0 := by
  intro fuel
  induction fuel with
  | zero => intro f buf i seen h; omega
  | succ fuel ih =>
    intro f buf i seen hrem hi hbuf
    have hib : i < buf.length := by omega
    have hfin : ∀ (r : Bool) (g : ang_file),
        ∃ r1 b f1, file_getl_finish buf i r g = Outcome.ok (r1, b, f1) ∧
          b.length = len ∧ ∃ k, k ≤ len - 1 ∧ b[k]? = some 0 := by
      intro r g
      refine ⟨r, buf.set i 0, g, file_getl_finish_ok buf i r g hib, by simpa using hbuf, i, hi, ?_⟩
      simp [hib]
    unfold file_getl_loop
    by_cases hlt : i < len - 1
    · simp only [hlt, if_true]
      cases hr : file_readc w f with
      | none => exact hfin _ _
      | some p =>
        obtain ⟨c, f1⟩ := p
        have hrem1 := file_remaining_readc w f f1 c hr
        simp only []
        by_cases hc13 : c = 13
        · simp only [hc13, if_true]
          exact ih f1 buf i true (by omega) hi hbuf
        · simp only [hc13, if_false]
          by_cases hcr : seen = true ∧ c ≠ 10
          · simp only [hcr, and_self, if_true, ne_eq, not_false_eq_true]
            exact hfin _ _
          · rw [if_neg hcr]
            by_cases hc10 : c = 10
            · simp only [hc10, if_true]
              exact hfin _ _
            · simp only [hc10, if_false]
              by_cases hc9 : c = 9
              · simp only [hc9, if_true]
                by_cases hts : (i + TAB_COLUMNS) % SIZE_MOD / TAB_COLUMNS * TAB_COLUMNS ≥ len
                · simp only [hts, if_true]
                  exact hfin _ _
                · simp only [hts, if_false]
                  obtain ⟨b, hb, hl⟩ := file_getl_fill_ok
                    ((i + TAB_COLUMNS) % SIZE_MOD / TAB_COLUMNS * TAB_COLUMNS - i) buf i (by omega)
                  simp only [hb]
                  exact ih f1 b _ seen (by omega) (by omega) (by omega)
              · simp only [hc9, if_false, buf_write_ok buf i c hib]
                exact ih f1 (buf.set i c) (i + 1) seen (by omega) (by omega) (by simpa using hbuf)
    · simp only [hlt, if_false]
      exact hfin _ _

/-- C5: for every file system, handle and buffer of capacity `len ≥ 1`,
`file_getl` returns without storing outside the buffer (a store at an index
`≥ len` would be a fault), and the buffer holds a NUL at an index `≤ len - 1`,
so the line is at most `len - 1` bytes long. -/
theorem C5_file_getl_nul_within_capacity (w : FileSys) (f : ang_file) (buf : List Nat)
    (len : Nat) (hlen : 1 ≤ len) (hsz : len < SIZE_MOD) (hbuf : buf.length = len) :
    ∃ r b f1, file_getl w f buf len = Outcome.ok (r, b, f1) ∧
      b.length = len ∧ ∃ k, k ≤ len - 1 ∧ b[k]? = some 0 := by
  have hmax : (len + SIZE_MOD - 1) % SIZE_MOD = len - 1 := by
    have h1 : len + SIZE_MOD - 1 = (len - 1) + SIZE_MOD := by omega
    rw [h1, Nat.add_mod_right]
    exact Nat.mod_eq_of_lt (by omega)
  unfold file_getl
  rw [hmax]
  exact file_getl_loop_safe w len hlen _ f buf 0 false (by omega) (by omega) hbuf

/-- C5 at the bytes `a`, TAB, `b`, CR, LF with capacity 8. -/
theorem C5_witness :
    ∃ r b f1, file_getl (one_file [97, 9, 98, 13, 10]) (handle_at 0) (List.replicate 8 255) 8
        = Outcome.ok (r, b, f1) ∧
      b.length = 8 ∧ ∃ k, k ≤ 8 - 1 ∧ b[k]? = some 0 :=
  C5_file_getl_nul_within_capacity (one_file [97, 9, 98, 13, 10]) (handle_at 0)
    (List.replicate 8 255) 8 (by decide) (by decide) (by decide)

/-! ### `file_getl`: when the result is `false` -/

theorem file_getl_finish_inv (buf : List Nat) (i : Nat) (r r1 : Bool) (f f1 : ang_file)
    (b : List Nat) (h : file_getl_finish buf i r f = Outcome.ok (r1, b, f1)) :
    r1 = r ∧ b = buf.set i 0 ∧ f1 = f := by
  unfold file_getl_finish buf_write at h
  by_cases hi : i < buf.length
  · simp only [hi, if_true, Outcome.ok.injEq, Prod.mk.injEq] at h
    exact ⟨h.1.symm, h.2.1.symm, h.2.2.symm⟩
  · simp [hi] at h

theorem file_getl_fill_inv : ∀ (n : Nat) (buf : List Nat) (i : Nat) (b : List Nat) (j : Nat),
    file_getl_fill n buf i = Outcome.ok (b, j) → j = i + n := by
  intro n
  induction n with
  | zero =>
    intro buf i b j h
    simp only [file_getl_fill, Outcome.ok.injEq, Prod.mk.injEq] at h
    omega
  | succ n ih =>
    intro buf i b j h
    unfold file_getl_fill buf_write at h
    by_cases hi : i < buf.length
    · simp only [hi, if_true] at h
      have := ih _ _ _ _ h
      omega
    · simp [hi] at h

/-- Once a byte has been stored (`i > 0`) the loop cannot return `false`. -/
theorem file_getl_loop_pos (w : FileSys) (len max_len : Nat) :
    ∀ (fuel : Nat) (f : ang_file) (buf : List Nat) (i : Nat) (seen : Bool)
      (r : Bool) (b : List Nat) (f1 : ang_file), 0 < i →
      file_getl_loop w len max_len fuel f buf i seen = Outcome.ok (r, b, f1) → r = true := by
  intro fuel
  induction fuel with
  | zero => intro f buf i seen r b f1 _ h; simp [file_getl_loop] at h
  | succ fuel ih =>
    intro f buf i seen r b f1 hi h
    have hi0 : i ≠ 0 := by omega
    unfold file_getl_loop at h
    by_cases hlt : i < max_len
    · simp only [hlt, if_true] at h
      cases hr : file_readc w f with
      | none =>
        simp only [hr, hi0, if_false] at h
        exact (file_getl_finish_inv _ _ _ _ _ _ _ h).1
      | some p =>
        obtain ⟨c, g⟩ := p
        simp only [hr] at h
        by_cases hc13 : c = 13
        · simp only [hc13, if_true] at h
          exact ih _ _ _ _ _ _ _ hi h
        · simp only [hc13, if_false] at h
          by_cases hcr : seen = true ∧ c ≠ 10
          · rw [if_pos hcr] at h
            exact (file_getl_finish_inv _ _ _ _ _ _ _ h).1
          · rw [if_neg hcr] at h
            by_cases hc10 : c = 10
            · simp only [hc10, if_true] at h
              exact (file_getl_finish_inv _ _ _ _ _ _ _ h).1
            · simp only [hc10, if_false] at h
              by_cases hc9 : c = 9
              · simp only [hc9, if_true] at h
                by_cases hts : (i + TAB_COLUMNS) % SIZE_MOD / TAB_COLUMNS * TAB_COLUMNS ≥ len
                · simp only [hts, if_true] at h
                  exact (file_getl_finish_inv _ _ _ _ _ _ _ h).1
                · simp only [hts, if_false] at h
                  cases hf : file_getl_fill
                      ((i + TAB_COLUMNS) % SIZE_MOD / TAB_COLUMNS * TAB_COLUMNS - i) buf i with
                  | ok q =>
                    obtain ⟨b1, j⟩ := q
                    simp only [hf] at h
                    have hj := file_getl_fill_inv _ _ _ _ _ hf
                    exact ih _ _ _ _ _ _ _ (by omega) h
                  | fault => simp [hf] at h
                  | nofuel => simp [hf] at h
              · simp only [hc9, if_false] at h
                cases hb : buf_write buf i c with
                | ok b1 =>
                  simp only [hb] at h
                  exact ih _ _ _ _ _ _ _ (by omega) h
                | fault => simp [hb] at h
                | nofuel => simp [hb] at h
    · simp only [hlt, if_false] at h
      exact (file_getl_finish_inv _ _ _ _ _ _ _ h).1

/-- A run of the loop from column 0 that returns `false` has read carriage
returns only and has stopped at the end of the file. -/
theorem file_getl_loop_false (w : FileSys) (len max_len : Nat) :
    ∀ (fuel : Nat) (f : ang_file) (buf : List Nat) (i : Nat) (seen : Bool)
      (b : List Nat) (f1 : ang_file) (data : List Nat), i = 0 → w f.fname = some data →
      file_getl_loop w len max_len fuel f buf i seen = Outcome.ok (false, b, f1) →
      f1 = { f with pos := f1.pos } ∧ f.pos ≤ f1.pos ∧ data.length ≤ f1.pos ∧
        (∀ k, f.pos ≤ k → k < f1.pos → data[k]? = some 13) ∧ b = buf.set 0 0 := by
  intro fuel
  induction fuel with
  | zero => intro f buf i seen b f1 data _ _ h; simp [file_getl_loop] at h
  | succ fuel ih =>
    intro f buf i seen b f1 data hi0 hw h
    unfold file_getl_loop at h
    by_cases hlt : i < max_len
    · simp only [hlt, if_true] at h
      cases hr : file_readc w f with
      | none =>
        simp only [hr, hi0, if_true] at h
        obtain ⟨_, hb, hf⟩ := file_getl_finish_inv _ _ _ _ _ _ _ h
        subst hf
        refine ⟨rfl, le_refl _, file_readc_none w f1 data hw hr, ?_, hb⟩
        intro k h1 h2
        omega
      | some p =>
        obtain ⟨c, g⟩ := p
        simp only [hr] at h
        obtain ⟨hg, data1, hw1, hd⟩ := file_readc_some w f g c hr
        have hdd : data1 = data := by
          rw [hw] at hw1
          exact (Option.some.inj hw1).symm
        subst hdd
        by_cases hc13 : c = 13
        · simp only [hc13, if_true] at h
          have hwg : w g.fname = some data1 := by rw [hg]; exact hw
          obtain ⟨e1, e2, e3, e4, e5⟩ := ih g buf i true b f1 data1 hi0 hwg h
          rw [hg] at e1 e2 e4
          simp only at e1 e2 e4
          refine ⟨e1, by omega, e3, ?_, e5⟩
          intro k h1 h2
          by_cases hk : k = f.pos
          · rw [hk, hd, hc13]
          · exact e4 k (by omega) h2
        · simp only [hc13, if_false] at h
          by_cases hcr : seen = true ∧ c ≠ 10
          · rw [if_pos hcr] at h
            have := (file_getl_finish_inv _ _ _ _ _ _ _ h).1
            cases this
          · rw [if_neg hcr] at h
            by_cases hc10 : c = 10
            · simp only [hc10, if_true] at h
              have := (file_getl_finish_inv _ _ _ _ _ _ _ h).1
              cases this
            · simp only [hc10, if_false] at h
              by_cases hc9 : c = 9
              · simp only [hc9, if_true] at h
                by_cases hts : (i + TAB_COLUMNS) % SIZE_MOD / TAB_COLUMNS * TAB_COLUMNS ≥ len
                · simp only [hts, if_true] at h
                  have := (file_getl_finish_inv _ _ _ _ _ _ _ h).1
                  cases this
                · simp only [hts, if_false] at h
                  cases hf : file_getl_fill
                      ((i + TAB_COLUMNS) % SIZE_MOD / TAB_COLUMNS * TAB_COLUMNS - i) buf i with
                  | ok q =>
                    obtain ⟨b1, j⟩ := q
                    simp only [hf] at h
                    have hj := file_getl_fill_inv _ _ _ _ _ hf
                    simp only [TAB_COLUMNS, SIZE_MOD] at hj
                    have := file_getl_loop_pos w len max_len _ _ _ _ _ _ _ _ (by omega) h
                    cases this
                  | fault => simp [hf] at h
                  | nofuel => simp [hf] at h
              · simp only [hc9, if_false] at h
                cases hb : buf_write buf i c with
                | ok b1 =>
                  simp only [hb] at h
                  have := file_getl_loop_pos w len max_len _ _ _ _ _ _ _ _ (by omega) h
                  cases this
                | fault => simp [hb] at h
                | nofuel => simp [hb] at h
    · simp only [hlt, if_false] at h
      have := (file_getl_finish_inv _ _ _ _ _ _ _ h).1
      cases this

/-- C2 (amended): when `file_getl` returns `false`, every byte that call read
is a carriage return, the stream is at the end of the file on return, and only
the NUL at index 0 was stored.  So a call that reads a byte other than `'\r'`
returns `true`; a call that reads only carriage returns up to the end of the
file returns `false` although it consumed them. -/
theorem C2_file_getl_false_only_cr (w : FileSys) (f : ang_file) (buf : List Nat) (len : Nat)
    (data b : List Nat) (f1 : ang_file) (hw : w f.fname = some data)
    (h : file_getl w f buf len = Outcome.ok (false, b, f1)) :
    f1 = { f with pos := f1.pos } ∧ f.pos ≤ f1.pos ∧ data.length ≤ f1.pos ∧
      (∀ k, f.pos ≤ k → k < f1.pos → data[k]? = some 13) ∧ b = buf.set 0 0 :=
  file_getl_loop_false w len _ _ f buf 0 false b f1 data rfl hw h

/-- C2 (amended) at a stream of two carriage returns with capacity 4: the call
returns `false` with both bytes read. -/
theorem C2_witness :
    handle_at 2 = { handle_at 0 with pos := (handle_at 2).pos } ∧
      (handle_at 0).pos ≤ (handle_at 2).pos ∧ [13, 13].length ≤ (handle_at 2).pos ∧
      (∀ k, (handle_at 0).pos ≤ k → k < (handle_at 2).pos → [13, 13][k]? = some 13) ∧
      [0, 255, 255, 255] = (List.replicate 4 255).set 0 0 :=
  C2_file_getl_false_only_cr (one_file [13, 13]) (handle_at 0) (List.replicate 4 255) 4
    [13, 13] [0, 255, 255, 255] (handle_at 2) (by decide) (by decide)

/-- C2 (counterexample): on a stream that holds the single byte `'\r'`,
`file_getl` with capacity 8 returns `false` and has consumed that byte: the
offset moved from 0 to 1. -/
theorem C2_counterexample :
    file_getl (one_file [13]) (handle_at 0) (List.replicate 8 255) 8
      = Outcome.ok (false, [0, 255, 255, 255, 255, 255, 255, 255], handle_at 1) ∧
    (handle_at 1).pos ≠ (handle_at 0).pos ∧
    file_readc (one_file [13]) (handle_at 0) ≠ none := by
  decide

/-! ### `file_getl`: reading the content of a line -/

/-- One iteration of the loop of `file_getl`. -/
theorem file_getl_loop_succ (w : FileSys) (len max_len fuel : Nat) (f : ang_file)
    (buf : List Nat) (i : Nat) (seen_cr : Bool) :
    file_getl_loop w len max_len (fuel + 1) f buf i seen_cr =
      if i < max_len then
        match file_readc w f with
        | none => file_getl_finish buf i (if i = 0 then false else true) f
        | some (c, f1) =>
          if c = 13 then file_getl_loop w len max_len fuel f1 buf i true
          else if seen_cr = true ∧ c ≠ 10 then
            file_getl_finish buf i true (file_skip f1 (-1)).2
          else if c = 10 then file_getl_finish buf i true f1
          else if c = 9 then
            if (i + TAB_COLUMNS) % SIZE_MOD / TAB_COLUMNS * TAB_COLUMNS ≥ len then
              file_getl_finish buf i true f1
            else
              match file_getl_fill
                  ((i + TAB_COLUMNS) % SIZE_MOD / TAB_COLUMNS * TAB_COLUMNS - i) buf i with
              | Outcome.ok (b, j) => file_getl_loop w len max_len fuel f1 b j seen_cr
              | Outcome.fault => Outcome.fault
              | Outcome.nofuel => Outcome.nofuel
          else
            match buf_write buf i c with
            | Outcome.ok b => file_getl_loop w len max_len fuel f1 b (i + 1) seen_cr
            | Outcome.fault => Outcome.fault
            | Outcome.nofuel => Outcome.nofuel
      else file_getl_finish buf i true f := by
  rw [file_getl_loop]

theorem file_readc_at (w : FileSys) (f : ang_file) (data : List Nat) (x : Nat)
    (hw : w f.fname = some data) (hx : data[f.pos]? = some x) :
    file_readc w f = some (x, { f with pos := f.pos + 1 }) := by
  simp [file_readc, hw, hx]

theorem drop_cons_get {α : Type} (l : List α) (n : Nat) (x : α) (t : List α)
    (h : l.drop n = x :: t) : l[n]? = some x ∧ l.drop (n + 1) = t := by
  constructor
  · have := List.getElem?_drop (L := l) (i := n) (j := 0)
    rw [h] at this
    simpa using this.symm
  · have h1 : l.drop (n + 1) = (l.drop n).drop 1 := by
      simp [List.drop_drop, Nat.add_comm]
    rw [h1, h]
    rfl

theorem set_at_end (out junk : List Nat) (x : Nat) (h : 0 < junk.length) :
    (out ++ junk).set out.length x = (out ++ [x]) ++ junk.drop 1 := by
  cases junk with
  | nil => simp at h
  | cons j js =>
    induction out with
    | nil => simp
    | cons o os ih => simp

/-- The fill loop appends `n` spaces at the end of what has been stored. -/
theorem file_getl_fill_append : ∀ (n : Nat) (out junk : List Nat), n ≤ junk.length →
    file_getl_fill n (out ++ junk) out.length
      = Outcome.ok (out ++ List.replicate n 32 ++ junk.drop n, out.length + n) := by
  intro n
  induction n with
  | zero => intro out junk _; simp [file_getl_fill]
  | succ n ih =>
    intro out junk h
    have hi : out.length < (out ++ junk).length := by simp; omega
    have hstep := ih (out ++ [32]) (junk.drop 1) (by simp; omega)
    simp only [List.length_append, List.length_singleton] at hstep
    simp only [file_getl_fill, buf_write_ok _ _ 32 hi, set_at_end out junk 32 (by omega), hstep]
    have e1 : out.length + 1 + n = out.length + (n + 1) := by omega
    have e2 : List.drop n (List.drop 1 junk) = List.drop (n + 1) junk := by
      simp [List.drop_drop, Nat.add_comm]
    rw [e1, e2, List.replicate_succ]
    simp

/-- Reading a stretch `c` of bytes without line terminators whose expansion
leaves room for one more column and the NUL: the loop stores the tab expansion
of `c` and goes on behind `c`. -/
theorem file_getl_loop_content (w : FileSys) (len : Nat) (hsz : len < SIZE_MOD) :
    ∀ (c : List Nat) (fuel : Nat) (f : ang_file) (data rest out junk : List Nat),
      w f.fname = some data → data.drop f.pos = c ++ rest →
      (∀ x ∈ c, x ≠ 13 ∧ x ≠ 10) →
      out.length + (spec_expand_tabs out.length c).length + 2 ≤ len →
      (out ++ junk).length = len →
      file_getl_loop w len (len - 1) (fuel + c.length) f (out ++ junk) out.length false
        = file_getl_loop w len (len - 1) fuel { f with pos := f.pos + c.length }
            (out ++ spec_expand_tabs out.length c
              ++ junk.drop (spec_expand_tabs out.length c).length)
            (out.length + (spec_expand_tabs out.length c).length) false := by
  intro c
  induction c with
  | nil =>
    intro fuel f data rest out junk _ _ _ _ _
    simp [spec_expand_tabs]
  | cons x cs ih =>
    intro fuel f data rest out junk hw hd hx hfit hbuf
    obtain ⟨hget, hdrop⟩ := drop_cons_get data f.pos x (cs ++ rest) (by simpa using hd)
    have hx13 : x ≠ 13 := (hx x (List.mem_cons_self _ _)).1
    have hx10 : x ≠ 10 := (hx x (List.mem_cons_self _ _)).2
    have hcs : ∀ y ∈ cs, y ≠ 13 ∧ y ≠ 10 := fun y hy => hx y (List.mem_cons_of_mem _ hy)
    have hlen : (out ++ junk).length = out.length + junk.length := List.length_append _ _
    have hfuel : fuel + (x :: cs).length = (fuel + cs.length) + 1 := by simp; omega
    have hw1 : w ({ f with pos := f.pos + 1 } : ang_file).fname = some data := hw
    have hpos : ({ fname := f.fname, mode := f.mode, pos := f.pos + 1 + cs.length } : ang_file)
        = { f with pos := f.pos + (x :: cs).length } := by
      simp only [List.length_cons, ang_file.mk.injEq, true_and]
      omega
    rw [hfuel, file_getl_loop_succ]
    by_cases h9 : x = 9
    · subst h9
      have hE : spec_expand_tabs out.length (9 :: cs)
          = List.replicate (4 - out.length % 4) 32
            ++ spec_expand_tabs (out.length + (4 - out.length % 4)) cs := by
        simp [spec_expand_tabs]
      rw [hE] at hfit ⊢
      simp only [List.length_append, List.length_replicate] at hfit ⊢
      have hlt : out.length < len - 1 := by omega
      have hts : (out.length + TAB_COLUMNS) % SIZE_MOD / TAB_COLUMNS * TAB_COLUMNS
          = out.length + (4 - out.length % 4) := by
        simp only [TAB_COLUMNS, SIZE_MOD] at hsz ⊢
        omega
      have hnot : ¬ (out.length + (4 - out.length % 4) ≥ len) := by omega
      have hsub : out.length + (4 - out.length % 4) - out.length = 4 - out.length % 4 := by
        omega
      have hfill := file_getl_fill_append (4 - out.length % 4) out junk (by omega)
      have hstep := ih fuel { f with pos := f.pos + 1 } data rest
        (out ++ List.replicate (4 - out.length % 4) 32) (junk.drop (4 - out.length % 4))
        hw1 hdrop hcs
        (by simp only [List.length_append, List.length_replicate]; omega)
        (by simp only [List.length_append, List.length_replicate, List.length_drop]; omega)
      simp only [List.length_append, List.length_replicate] at hstep
      simp only [hlt, if_true, file_readc_at w f data 9 hw hget, hts, hnot, if_false, hsub,
        hfill, hstep, hpos]
      simp [List.drop_drop, Nat.add_assoc, Nat.add_comm]
    · have hE : spec_expand_tabs out.length (x :: cs)
          = x :: spec_expand_tabs (out.length + 1) cs := by
        simp [spec_expand_tabs, h9]
      rw [hE] at hfit ⊢
      simp only [List.length_cons] at hfit ⊢
      have hlt : out.length < len - 1 := by omega
      have hi : out.length < (out ++ junk).length := by omega
      have hstep := ih fuel { f with pos := f.pos + 1 } data rest
        (out ++ [x]) (junk.drop 1) hw1 hdrop hcs
        (by simp only [List.length_append, List.length_singleton]; omega)
        (by simp only [List.length_append, List.length_singleton, List.length_drop]; omega)
      simp only [List.length_append, List.length_singleton] at hstep
      simp only [hlt, if_true, file_readc_at w f data x hw hget, hx13, if_false, hx10, h9,
        Bool.false_eq_true, false_and, buf_write_ok _ _ x hi,
        set_at_end out junk x (by omega), hstep, hpos]
      simp [List.drop_drop, Nat.add_assoc, Nat.add_comm]

/-! ### `file_getl`: the byte that ends the line -/

theorem file_getl_finish_end (out junk : List Nat) (r : Bool) (g : ang_file)
    (h : 0 < junk.length) :
    file_getl_finish (out ++ junk) out.length r g
      = Outcome.ok (r, out ++ 0 :: junk.drop 1, g) := by
  have hi : out.length < (out ++ junk).length := by simp; omega
  rw [file_getl_finish_ok _ _ _ _ hi, set_at_end out junk 0 h]
  simp

/-- A line feed ends the line and is consumed. -/
theorem file_getl_loop_lf (w : FileSys) (len max_len fuel : Nat) (f : ang_file)
    (data out junk : List Nat) (seen : Bool) (hw : w f.fname = some data)
    (hget : data[f.pos]? = some 10) (hi : out.length < max_len) (hj : 0 < junk.length) :
    file_getl_loop w len max_len (fuel + 1) f (out ++ junk) out.length seen
      = Outcome.ok (true, out ++ 0 :: junk.drop 1, { f with pos := f.pos + 1 }) := by
  rw [file_getl_loop_succ]
  simp [hi, file_readc_at w f data 10 hw hget, file_getl_finish_end out junk _ _ hj]

/-- A carriage return is consumed and remembered. -/
theorem file_getl_loop_cr (w : FileSys) (len max_len fuel : Nat) (f : ang_file)
    (data buf : List Nat) (i : Nat) (seen : Bool) (hw : w f.fname = some data)
    (hget : data[f.pos]? = some 13) (hi : i < max_len) :
    file_getl_loop w len max_len (fuel + 1) f buf i seen
      = file_getl_loop w len max_len fuel { f with pos := f.pos + 1 } buf i true := by
  rw [file_getl_loop_succ]
  simp [hi, file_readc_at w f data 13 hw hget]

/-- A tab whose tab stop is at or beyond `len` ends the line where it stands:
the tab is consumed and nothing is stored for it. -/
theorem file_getl_loop_tab_break (w : FileSys) (len max_len fuel : Nat) (f : ang_file)
    (data out junk : List Nat) (hw : w f.fname = some data)
    (hget : data[f.pos]? = some 9) (hi : out.length < max_len) (hj : 0 < junk.length)
    (hts : (out.length + TAB_COLUMNS) % SIZE_MOD / TAB_COLUMNS * TAB_COLUMNS ≥ len) :
    file_getl_loop w len max_len (fuel + 1) f (out ++ junk) out.length false
      = Outcome.ok (true, out ++ 0 :: junk.drop 1, { f with pos := f.pos + 1 }) := by
  rw [file_getl_loop_succ]
  simp [hi, file_readc_at w f data 9 hw hget, file_getl_finish_end out junk _ _ hj, hts]

theorem size_max_len (len : Nat) (h1 : 1 ≤ len) (hsz : len < SIZE_MOD) :
    (len + SIZE_MOD - 1) % SIZE_MOD = len - 1 := by
  have h : len + SIZE_MOD - 1 = (len - 1) + SIZE_MOD := by omega
  rw [h, Nat.add_mod_right]
  exact Nat.mod_eq_of_lt (by omega)

theorem file_remaining_drop (w : FileSys) (f : ang_file) (data tail : List Nat)
    (hw : w f.fname = some data) (hd : data.drop f.pos = tail) :
    file_remaining w f = tail.length := by
  simp only [file_remaining, hw]
  rw [← hd, List.length_drop]

theorem drop_append_left {α : Type} (l : List α) (n : Nat) (c t : List α)
    (h : l.drop n = c ++ t) : l.drop (n + c.length) = t := by
  have h1 : l.drop (n + c.length) = (l.drop n).drop c.length := by
    simp [List.drop_drop, Nat.add_comm]
  rw [h1, h]
  simp

/-- The whole of a line: content `c`, then a byte `t` that the loop meets at a
column with room left.  `file_getl` is the loop run behind `c`. -/
theorem file_getl_content (w : FileSys) (f : ang_file) (buf : List Nat) (len : Nat)
    (data c tail : List Nat) (hw : w f.fname = some data) (hsz : len < SIZE_MOD)
    (hbuf : buf.length = len) (hd : data.drop f.pos = c ++ tail)
    (hc : ∀ x ∈ c, x ≠ 13 ∧ x ≠ 10) (hfit : (spec_expand_tabs 0 c).length + 2 ≤ len) :
    file_getl w f buf len
      = file_getl_loop w len (len - 1) (tail.length + 1) { f with pos := f.pos + c.length }
          (spec_expand_tabs 0 c ++ buf.drop (spec_expand_tabs 0 c).length)
          (spec_expand_tabs 0 c).length false := by
  have hrem := file_remaining_drop w f data (c ++ tail) hw hd
  have hfuel : file_remaining w f + 1 = (tail.length + 1) + c.length := by
    rw [hrem, List.length_append]
    omega
  have h := file_getl_loop_content w len hsz c (tail.length + 1) f data tail [] buf hw hd hc
    (by simpa using hfit) (by simpa using hbuf)
  simp only [List.nil_append, List.length_nil, Nat.zero_add] at h
  unfold file_getl
  rw [size_max_len len (by omega) hsz, hfuel, h]

/-- C4: for every content `c` without `'\r'` and `'\n'` whose tab expansion
`E(c)` has at most `len - 2` bytes, reading at a stream position followed by
`c`, a terminator (`"\n"` or `"\r\n"`) and `rest` returns `true`, leaves `E(c)`
followed by NUL in the buffer, and leaves the stream positioned at `rest`; the
result is the same for both terminators. -/
theorem C4_file_getl_line (w : FileSys) (f : ang_file) (buf : List Nat) (len : Nat)
    (data c term rest : List Nat) (hw : w f.fname = some data) (hsz : len < SIZE_MOD)
    (hbuf : buf.length = len) (hterm : term = [10] ∨ term = [13, 10])
    (hd : data.drop f.pos = c ++ (term ++ rest))
    (hc : ∀ x ∈ c, x ≠ 13 ∧ x ≠ 10) (hfit : (spec_expand_tabs 0 c).length + 2 ≤ len) :
    file_getl w f buf len
      = Outcome.ok (true,
          spec_expand_tabs 0 c ++ 0 :: buf.drop ((spec_expand_tabs 0 c).length + 1),
          { f with pos := f.pos + c.length + term.length }) ∧
    data.drop (f.pos + c.length + term.length) = rest := by
  have hbase := file_getl_content w f buf len data c (term ++ rest) hw hsz hbuf hd hc hfit
  have htail := drop_append_left data f.pos c (term ++ rest) hd
  have hrest : data.drop (f.pos + c.length + term.length) = rest :=
    drop_append_left data (f.pos + c.length) term rest htail
  refine ⟨?_, hrest⟩
  have hj : 0 < (buf.drop (spec_expand_tabs 0 c).length).length := by
    rw [List.length_drop]; omega
  have hi : (spec_expand_tabs 0 c).length < len - 1 := by omega
  have hdd : List.drop 1 (List.drop (spec_expand_tabs 0 c).length buf)
      = List.drop ((spec_expand_tabs 0 c).length + 1) buf := by
    simp [List.drop_drop, Nat.add_comm]
  have hw1 : w ({ f with pos := f.pos + c.length } : ang_file).fname = some data := hw
  rw [hbase]
  rcases hterm with rfl | rfl
  · have hget := (drop_cons_get data (f.pos + c.length) 10 rest (by simpa using htail)).1
    have h := file_getl_loop_lf w len (len - 1) ([10] ++ rest).length
      { f with pos := f.pos + c.length } data (spec_expand_tabs 0 c)
      (buf.drop (spec_expand_tabs 0 c).length) false hw1 hget hi hj
    rw [h, hdd]
    rfl
  · obtain ⟨hget, hnext⟩ := drop_cons_get data (f.pos + c.length) 13 (10 :: rest)
      (by simpa using htail)
    have hget2 := (drop_cons_get data (f.pos + c.length + 1) 10 rest hnext).1
    have hw2 : w ({ f with pos := f.pos + c.length + 1 } : ang_file).fname = some data := hw
    have h1 := file_getl_loop_cr w len (len - 1) (rest.length + 2)
      { f with pos := f.pos + c.length } data
      (spec_expand_tabs 0 c ++ buf.drop (spec_expand_tabs 0 c).length)
      (spec_expand_tabs 0 c).length false hw1 hget hi
    have h2 := file_getl_loop_lf w len (len - 1) (rest.length + 1)
      { f with pos := f.pos + c.length + 1 } data (spec_expand_tabs 0 c)
      (buf.drop (spec_expand_tabs 0 c).length) true hw2 hget2 hi hj
    have hf : ([13, 10] ++ rest).length + 1 = (rest.length + 2) + 1 := by simp
    rw [hf, h1, h2, hdd]
    rfl

/-- The string held in a buffer ends at the first NUL at the latest. -/
theorem c_strlen_le (e t : List Nat) : c_strlen (e ++ 0 :: t) ≤ e.length := by
  induction e with
  | nil => simp [c_strlen, List.takeWhile]
  | cons a e ih =>
    by_cases ha : a = 0
    · simp [c_strlen, List.takeWhile, ha]
    · have hb : (a != 0) = true := by simp [ha]
      have h : c_strlen (a :: e ++ 0 :: t) = c_strlen (e ++ 0 :: t) + 1 := by
        simp only [c_strlen, List.cons_append, List.takeWhile_cons, hb, if_true,
          List.length_cons]
      rw [h, List.length_cons]
      omega

/-- C4 at the bytes `a`, TAB, `b`, CR, LF with capacity 8: the line read is
`"a   b"` and the result is `true`; the next call, on the exhausted stream,
returns `false` and leaves an empty string in the buffer. -/
theorem C4_witness :
    (file_getl (one_file [97, 9, 98, 13, 10]) (handle_at 0) (List.replicate 8 255) 8
        = Outcome.ok (true, [97, 32, 32, 32, 98, 0, 255, 255], handle_at 5) ∧
      List.drop 5 [97, 9, 98, 13, 10] = []) ∧
    file_getl (one_file [97, 9, 98, 13, 10]) (handle_at 5) [97, 32, 32, 32, 98, 0, 255, 255] 8
        = Outcome.ok (false, [0, 32, 32, 32, 98, 0, 255, 255], handle_at 5) ∧
    c_strlen [0, 32, 32, 32, 98, 0, 255, 255] = 0 :=
  ⟨C4_file_getl_line (one_file [97, 9, 98, 13, 10]) (handle_at 0) (List.replicate 8 255) 8
      [97, 9, 98, 13, 10] [97, 9, 98] [13, 10] [] (by decide) (by decide) (by decide)
      (by decide) (by decide) (by decide) (by decide),
    by decide, by decide⟩

/-- C3 (amended): when the loop meets a tab at column `i = |E(c)|` (so
`i ≤ len - 2`) and the next tab stop `(i + 4) / 4 * 4` is at or beyond `len`,
the tab is consumed and not expanded at all: the line ends at column `i`, the
buffer holds `E(c)` followed by NUL at index `i`, and the result is `true`. -/
theorem C3_file_getl_tab_at_capacity (w : FileSys) (f : ang_file) (buf : List Nat) (len : Nat)
    (data c rest : List Nat) (hw : w f.fname = some data) (hsz : len + 2 < SIZE_MOD)
    (hbuf : buf.length = len) (hd : data.drop f.pos = c ++ (9 :: rest))
    (hc : ∀ x ∈ c, x ≠ 13 ∧ x ≠ 10) (hfit : (spec_expand_tabs 0 c).length + 2 ≤ len)
    (hts : ((spec_expand_tabs 0 c).length + 4) / 4 * 4 ≥ len) :
    file_getl w f buf len
      = Outcome.ok (true,
          spec_expand_tabs 0 c ++ 0 :: buf.drop ((spec_expand_tabs 0 c).length + 1),
          { f with pos := f.pos + c.length + 1 }) ∧
    c_strlen (spec_expand_tabs 0 c ++ 0 :: buf.drop ((spec_expand_tabs 0 c).length + 1))
      ≤ (spec_expand_tabs 0 c).length := by
  have hbase := file_getl_content w f buf len data c (9 :: rest) hw (by omega) hbuf hd hc hfit
  have htail := drop_append_left data f.pos c (9 :: rest) hd
  have hget := (drop_cons_get data (f.pos + c.length) 9 rest htail).1
  have hj : 0 < (buf.drop (spec_expand_tabs 0 c).length).length := by
    rw [List.length_drop]; omega
  have hi : (spec_expand_tabs 0 c).length < len - 1 := by omega
  have hdd : List.drop 1 (List.drop (spec_expand_tabs 0 c).length buf)
      = List.drop ((spec_expand_tabs 0 c).length + 1) buf := by
    simp [List.drop_drop, Nat.add_comm]
  have hw1 : w ({ f with pos := f.pos + c.length } : ang_file).fname = some data := hw
  have hcode : ((spec_expand_tabs 0 c).length + TAB_COLUMNS) % SIZE_MOD / TAB_COLUMNS
      * TAB_COLUMNS ≥ len := by
    simp only [TAB_COLUMNS, SIZE_MOD] at hsz ⊢
    omega
  have h := file_getl_loop_tab_break w len (len - 1) (9 :: rest).length
    { f with pos := f.pos + c.length } data (spec_expand_tabs 0 c)
    (buf.drop (spec_expand_tabs 0 c).length) hw1 hget hi hj hcode
  refine ⟨?_, ?_⟩
  · rw [hbase, h, hdd]
  · exact c_strlen_le _ _

/-- C3 (amended) at the bytes `a`, `b`, TAB, `c` with capacity 4: the tab at
column 2 has the tab stop 4; the line read is `"ab"`. -/
theorem C3_witness :
    file_getl (one_file [97, 98, 9, 99]) (handle_at 0) (List.replicate 4 255) 4
      = Outcome.ok (true, [97, 98, 0, 255], handle_at 3) ∧
    c_strlen [97, 98, 0, 255] ≤ 2 :=
  C3_file_getl_tab_at_capacity (one_file [97, 98, 9, 99]) (handle_at 0) (List.replicate 4 255) 4
    [97, 98, 9, 99] [97, 98] [99] (by decide) (by decide) (by decide) (by decide) (by decide)
    (by decide) (by decide)

/-- C3 (counterexample): with capacity 4 and the bytes `a`, TAB, `b`, the tab
is read at column 1 and its tab stop 4 does not fit.  The buffer is not padded
with spaces up to column 3: the line is `"a"`, of length 1 and not 3. -/
theorem C3_counterexample :
    (1 + TAB_COLUMNS) / TAB_COLUMNS * TAB_COLUMNS ≥ 4 ∧
    file_getl (one_file [97, 9, 98]) (handle_at 0) (List.replicate 4 255) 4
      = Outcome.ok (true, [97, 0, 255, 255], handle_at 2) ∧
    c_strlen [97, 0, 255, 255] = 1 ∧
    [97, 0, 255, 255] ≠ [97, 32, 32, 0] := by
  decide

/-! ### `path_build` -/

/-- Appending to the string already in the buffer when everything fits. -/
theorem strnfcat_fits (buf : List Nat) (max : Nat) (s : List Nat)
    (h : buf.length + s.length < max) :
    strnfcat buf max buf.length s = (buf ++ s, (buf ++ s).length) := by
  have h1 : ¬ (buf.length ≥ max) := by omega
  have h2 : s.length ≤ max - buf.length - 1 := by omega
  simp only [strnfcat, h1, if_false, List.take_length, List.length_append,
    List.take_of_length_le h2, Nat.min_def, h2, if_true]

/-- A path that does not start with `~`, or any path when `UNIX` is not
defined, is appended as it is. -/
theorem path_process_plain (unix : Bool) (db : UserDb) (buf : List Nat) (len : Nat)
    (path : List Nat) (h : path.head? ≠ some 126) (hfit : buf.length + path.length < len) :
    path_process unix db buf len buf.length path = (buf ++ path, (buf ++ path).length) := by
  have hc : ¬ (unix = true ∧ path.head? = some 126) := fun hh => h hh.2
  simp only [path_process, hc, if_false]
  exact strnfcat_fits buf len path hfit

/-- C7: for a non-empty base and a non-empty leaf that does not start with the
separator, neither starting with `~`, and a buffer that holds the result,
`path_build` yields `base ++ leaf` when `base` ends with the separator and
`base ++ PATH_SEP ++ leaf` otherwise, and returns the length of that string. -/
theorem C7_path_build_join (unix : Bool) (db : UserDb) (len : Nat) (base leaf : List Nat)
    (hb : base ≠ []) (hl : leaf ≠ []) (hsep : leaf.head? ≠ some PATH_SEPC)
    (hb1 : base.head? ≠ some 126) (hl1 : leaf.head? ≠ some 126)
    (hfit : base.length + PATH_SEP.length + leaf.length < len) :
    path_build unix db len base leaf
      = (if suffix base PATH_SEP = true then base ++ leaf else base ++ PATH_SEP ++ leaf,
         (if suffix base PATH_SEP = true then base ++ leaf
          else base ++ PATH_SEP ++ leaf).length) := by
  have hP : PATH_SEP.length = 1 := rfl
  have hpre : ¬ (prefix_of leaf PATH_SEP = true) := by
    cases leaf with
    | nil => exact absurd rfl hl
    | cons x xs =>
      have hx : x ≠ 47 := fun e => hsep (by simp [e, PATH_SEPC])
      have hx2 : ¬ (47 = x) := fun e => hx e.symm
      simp [prefix_of, PATH_SEP, List.isPrefixOf, hx2]
  have hcond : ¬ (base = [] ∨ prefix_of leaf PATH_SEP = true ∨
      (unix = true ∧ leaf.head? = some 126)) := by
    rintro (h | h | h)
    · exact hb h
    · exact hpre h
    · exact hl1 h.2
  have hbase := path_process_plain unix db [] len base hb1 (by simp; omega)
  simp only [List.nil_append, List.length_nil] at hbase
  simp only [path_build, hl, if_false, hcond, hbase]
  by_cases hs : suffix base PATH_SEP = true
  · simp only [hs, if_true]
    exact path_process_plain unix db base len leaf hl1 (by omega)
  · simp only [hs, if_false]
    rw [strnfcat_fits base len PATH_SEP (by omega)]
    exact path_process_plain unix db (base ++ PATH_SEP) len leaf hl1
      (by simp only [List.length_append]; omega)

/-- C7 at `build("/a/b", "c")` and `build("/a/b/", "c")`: both are `"/a/b/c"`. -/
theorem C7_witness :
    path_build true db_bob 64 [47, 97, 47, 98] [99] = ([47, 97, 47, 98, 47, 99], 6) ∧
    path_build true db_bob 64 [47, 97, 47, 98, 47] [99] = ([47, 97, 47, 98, 47, 99], 6) :=
  ⟨C7_path_build_join true db_bob 64 [47, 97, 47, 98] [99] (by decide) (by decide) (by decide)
      (by decide) (by decide) (by decide),
   C7_path_build_join true db_bob 64 [47, 97, 47, 98, 47] [99] (by decide) (by decide)
      (by decide) (by decide) (by decide) (by decide)⟩

/-- The first separator of `name ++ "/" ++ rest` stands right behind `name`
when `name` holds none. -/
theorem strstr_sep (name rest : List Nat) (h : PATH_SEPC ∉ name) :
    strstr (name ++ 47 :: rest) PATH_SEP = some name.length := by
  induction name with
  | nil => simp [strstr, PATH_SEP, List.isPrefixOf]
  | cons x xs ih =>
    have hx : ¬ (47 = x) := by
      intro e
      exact h (by simp [PATH_SEPC, e])
    have hxs : PATH_SEPC ∉ xs := fun hm => h (List.mem_cons_of_mem _ hm)
    simp [strstr, PATH_SEP, List.isPrefixOf, hx, ih hxs] 
    simpa [PATH_SEP] using ih hxs

/-- C8 (amended): for every base, every user name of fewer than 128 bytes
without a separator that the user database resolves to the home directory `h`
(the invoking user's entry for the empty name) and every text `rest`,
`path_build(base, "~" ++ name ++ "/" ++ rest)` with a buffer that holds the
result ignores `base` and yields `h`, then `PATH_SEP`, then the text from the
`/` on: `h ++ "/" ++ "/" ++ rest`. -/
theorem C8_path_build_home (db : UserDb) (len : Nat) (base name rest h : List Nat)
    (hname : PATH_SEPC ∉ name) (hshort : name.length < 128)
    (hres : lookup_user db name = some h)
    (hfit : h.length + 2 + rest.length < len) :
    path_build true db len base (126 :: name ++ 47 :: rest)
      = (h ++ PATH_SEP ++ (47 :: rest), h.length + 2 + rest.length) := by
  have hstr := strstr_sep name rest hname
  have hk : ¬ (name.length ≥ 128) := by omega
  have h1 := strnfcat_fits [] len (h ++ PATH_SEP) (by simp [PATH_SEP]; omega)
  have h2 := strnfcat_fits (h ++ PATH_SEP) len (47 :: rest) (by simp [PATH_SEP]; omega)
  simp only [List.nil_append, List.length_nil] at h1
  simp only [path_build, List.cons_append, List.cons_ne_nil, if_false, List.head?_cons,
    and_self, or_true, if_true, path_process, List.drop_one, List.tail_cons, hstr, hk,
    List.take_left, List.drop_left, path_process_home, hres, h1, h2, reduceCtorEq]
  simp [PATH_SEP]
  omega

/-- C8 at `~bob/f` and at `~/f`: the home directory, `PATH_SEP`, then `/f`. -/
theorem C8_witness :
    path_build true db_bob 64 [120] (126 :: [98, 111, 98] ++ 47 :: [102])
      = ([47, 104, 111, 109, 101, 47, 98, 111, 98] ++ PATH_SEP ++ (47 :: [102]), 9 + 2 + 1) ∧
    path_build true db_bob 64 [120] (126 :: [] ++ 47 :: [102])
      = ([47, 104, 111, 109, 101, 47, 109, 101] ++ PATH_SEP ++ (47 :: [102]), 8 + 2 + 1) :=
  ⟨C8_path_build_home db_bob 64 [120] [98, 111, 98] [102]
      [47, 104, 111, 109, 101, 47, 98, 111, 98] (by decide) (by decide) (by decide) (by decide),
   C8_path_build_home db_bob 64 [120] [] [102]
      [47, 104, 111, 109, 101, 47, 109, 101] (by decide) (by decide) (by decide) (by decide)⟩

set_option maxRecDepth 20000 in
/-- C8 (counterexample): with `bob` resolving to `/home/bob`,
`path_build("x", "~bob/f")` is `/home/bob//f`, with a doubled separator, and not
`/home/bob/f`; and a 128-byte user name that the database resolves to `/h` is
dropped: the result is the empty string. -/
theorem C8_counterexample :
    lookup_user db_bob [98, 111, 98] = some [47, 104, 111, 109, 101, 47, 98, 111, 98] ∧
    path_build true db_bob 64 [120] [126, 98, 111, 98, 47, 102]
      = ([47, 104, 111, 109, 101, 47, 98, 111, 98, 47, 47, 102], 12) ∧
    path_build true db_bob 64 [120] [126, 98, 111, 98, 47, 102]
      ≠ ([47, 104, 111, 109, 101, 47, 98, 111, 98, 47, 102], 11) ∧
    lookup_user db_long (List.replicate 128 97) = some [47, 104] ∧
    path_build true db_long 1024 [120] (126 :: List.replicate 128 97 ++ [47, 102]) = ([], 0) := by
  decide

/-! ### `dir_create` -/

set_option maxRecDepth 1000000 in
/-- C6 (code defect): on `/aa...a/b` with a 512-byte parent `/aa...a` and no
directory but the root, the guard `len - 1 > 512` lets the parent through and
`my_strcpy(buf, path, 513)` stores 513 bytes in `char buf[512]`: `dir_create`
writes past the scratch array instead of returning `false`. -/
theorem C6_dir_create_overflow :
    (List.take 512 path_512).length = 512 ∧
    my_strcpy 512 path_512 (512 + 1) = Outcome.fault ∧
    dir_create { dirs := [] } path_512 = Outcome.fault := by
  decide

/-- Splitting steps over the bytes of a component that holds no separator. -/
theorem path_split_aux_seg (seg rest cur : List Nat) (h : PATH_SEPC ∉ seg) :
    path_split_aux (seg ++ rest) cur = path_split_aux rest (cur ++ seg) := by
  induction seg generalizing cur with
  | nil => simp
  | cons x xs ih =>
    have hx : x ≠ PATH_SEPC := fun e => h (by simp [e])
    have hxs : PATH_SEPC ∉ xs := fun hm => h (List.mem_cons_of_mem _ hm)
    simp only [List.cons_append, path_split_aux, hx, if_false, List.append_eq]
    rw [ih (cur ++ [x]) hxs]
    simp

theorem path_split_aux_mkpath (ss : List (List Nat))
    (hg : ∀ s ∈ ss, s ≠ [] ∧ PATH_SEPC ∉ s) :
    ∀ cur : List Nat, cur ≠ [] → path_split_aux (mkpath ss) cur = cur :: ss := by
  induction ss with
  | nil => intro cur hc; simp [mkpath, path_split_aux, hc]
  | cons s ss ih =>
    intro cur hc
    have hs := hg s (List.mem_cons_self _ _)
    have hss : ∀ t ∈ ss, t ≠ [] ∧ PATH_SEPC ∉ t := fun t ht => hg t (List.mem_cons_of_mem _ ht)
    have h47 : (47 : Nat) = PATH_SEPC := rfl
    simp only [mkpath, path_split_aux, h47, if_true, hc, if_false, List.append_eq]
    rw [path_split_aux_seg s (mkpath ss) [] hs.2, List.nil_append, ih hss s hs.1]

/-- Resolving the path built from well-formed components gives them back. -/
theorem path_components_mkpath (ss : List (List Nat))
    (hg : ∀ s ∈ ss, s ≠ [] ∧ PATH_SEPC ∉ s) : path_components (mkpath ss) = ss := by
  cases ss with
  | nil => simp [path_components, mkpath, path_split_aux]
  | cons s ss =>
    have hs := hg s (List.mem_cons_self _ _)
    have hss : ∀ t ∈ ss, t ≠ [] ∧ PATH_SEPC ∉ t := fun t ht => hg t (List.mem_cons_of_mem _ ht)
    have h47 : (47 : Nat) = PATH_SEPC := rfl
    simp only [path_components, mkpath, path_split_aux, h47, if_true, List.append_eq]
    rw [path_split_aux_seg s (mkpath ss) [] hs.2, List.nil_append,
      path_split_aux_mkpath ss hss s hs.1]

theorem mkpath_append (a b : List (List Nat)) : mkpath (a ++ b) = mkpath a ++ mkpath b := by
  induction a with
  | nil => simp [mkpath]
  | cons s ss ih => simp [mkpath, ih]

theorem mkpath_ne_nil (s : List Nat) (ss : List (List Nat)) : mkpath (s :: ss) ≠ [] := by
  simp [mkpath]

/-- The bytes of a component are stepped over without any effect. -/
theorem dir_create_walk_seg (path seg rest : List Nat) (h : PATH_SEPC ∉ seg) :
    ∀ (k : Nat) (d : DirSys),
      dir_create_walk path (seg ++ rest) k d = dir_create_walk path rest (k + seg.length) d := by
  induction seg with
  | nil => intro k d; simp
  | cons x xs ih =>
    intro k d
    have hx : x ≠ PATH_SEPC := fun e => h (by simp [e])
    have hxs : PATH_SEPC ∉ xs := fun hm => h (List.mem_cons_of_mem _ hm)
    simp only [List.cons_append, dir_create_walk, hx, if_false, List.length_cons, List.append_eq]
    rw [ih hxs]
    congr 1
    omega

theorem inits_tail_snoc {α : Type} (l : List α) (a : α) :
    (l ++ [a]).inits.tail = l.inits.tail ++ [l ++ [a]] := by
  rw [List.inits_append]
  have hne : l.inits ≠ [] := by
    cases l <;> simp
  rw [List.tail_append_of_ne_nil hne]
  simp

theorem snoc_not_mem_inits_tail {α : Type} (l : List α) (a : α) :
    l ++ [a] ∉ l.inits.tail := by
  intro h
  have h1 : l ++ [a] ∈ l.inits := List.mem_of_mem_tail h
  have h2 := (List.mem_inits _ _).mp h1
  have h3 := h2.length_le
  simp at h3

theorem self_mem_inits_tail {α : Type} (l : List α) (h : l ≠ []) : l ∈ l.inits.tail := by
  cases l with
  | nil => exact absurd rfl h
  | cons x xs =>
    have h1 : (x :: xs) ∈ (x :: xs).inits := (List.mem_inits _ _).mpr (List.prefix_refl _)
    rw [List.inits_cons] at h1 ⊢
    simp

theorem mem_inits_tail_of_prefix {α : Type} (x l : List α) (hx : x ≠ []) (hp : x <+: l) :
    x ∈ l.inits.tail := by
  have h1 : x ∈ l.inits := (List.mem_inits _ _).mpr hp
  cases l with
  | nil =>
    simp only [List.inits, List.mem_singleton] at h1
    exact absurd h1 hx
  | cons a l =>
    rw [List.inits_cons] at h1 ⊢
    rcases List.mem_cons.mp h1 with h | h
    · exact absurd h hx
    · exact h

/-- Components that are ordinary names resolve to themselves when every
directory on the way exists. -/
theorem dir_resolve_plain (d : DirSys) :
    ∀ (cs cur : List (List Nat)), (∀ c ∈ cs, c ≠ [46] ∧ c ≠ [46, 46]) →
      (∀ i, i < cs.length → cur ++ cs.take (i + 1) ∈ d.dirs) →
      dir_resolve d cur cs = some (cur ++ cs) := by
  intro cs
  induction cs with
  | nil => intro cur _ _; simp [dir_resolve]
  | cons c cs ih =>
    intro cur hp hm
    have hc := hp c (List.mem_cons_self _ _)
    have h0 : cur ++ [c] ∈ d.dirs := by
      have := hm 0 (by simp)
      simpa using this
    have hrec := ih (cur ++ [c]) (fun x hx => hp x (List.mem_cons_of_mem _ hx))
      (by
        intro i hi
        have := hm (i + 1) (by simp only [List.length_cons]; omega)
        simpa using this)
    simp only [dir_resolve, hc.1, hc.2, if_false, h0, if_true, hrec]
    simp

/-- Resolution of a path with one more component. -/
theorem dir_resolve_snoc (d : DirSys) (a : List Nat) :
    ∀ (cs cur : List (List Nat)),
      dir_resolve d cur (cs ++ [a]) = (dir_resolve d cur cs).bind (fun c => dir_resolve d c [a]) := by
  intro cs
  induction cs with
  | nil => intro cur; simp [dir_resolve]
  | cons c cs ih =>
    intro cur
    simp only [List.cons_append, dir_resolve]
    by_cases h1 : c = [46]
    · simp only [h1, if_true]
      exact ih cur
    · by_cases h2 : c = [46, 46]
      · simp only [h2, if_true]
        rw [if_neg (by decide)]
        exact ih cur.dropLast
      · simp only [h1, h2, if_false]
        by_cases h3 : cur ++ [c] ∈ d.dirs
        · simp only [h3, if_true]
          exact ih (cur ++ [c])
        · simp only [h3, if_false, Option.none_bind]

/-- With its non-empty prefixes present, a list of ordinary names resolves. -/
theorem dir_resolve_inits (l : List (List Nat)) (extra : List (List (List Nat)))
    (hdot : ∀ s ∈ l, s ≠ [46] ∧ s ≠ [46, 46]) :
    dir_resolve { dirs := l.inits.tail ++ extra } [] l = some l := by
  have h := dir_resolve_plain { dirs := l.inits.tail ++ extra } l [] hdot
    (by
      intro i hi
      have hne : l.take (i + 1) ≠ [] := by
        intro h
        have := congrArg List.length h
        simp only [List.length_take, List.length_nil] at this
        omega
      have := mem_inits_tail_of_prefix (l.take (i + 1)) l hne (List.take_prefix _ l)
      simp only [List.nil_append, List.mem_append]
      exact Or.inl this)
  simpa using h

/-- With the proper prefixes of `l ++ [a]` present, the directory `l ++ [a]`
does not exist yet and `mkdir` creates it. -/
theorem my_mkdir_next (l : List (List Nat)) (a : List Nat)
    (hg : ∀ s ∈ l ++ [a], s ≠ [] ∧ PATH_SEPC ∉ s)
    (hdot : ∀ s ∈ l ++ [a], s ≠ [46] ∧ s ≠ [46, 46]) :
    dir_exists { dirs := l.inits.tail } (mkpath (l ++ [a])) = false ∧
    my_mkdir { dirs := l.inits.tail } (mkpath (l ++ [a]))
      = (0, { dirs := (l ++ [a]).inits.tail }) := by
  have hc := path_components_mkpath (l ++ [a]) hg
  have hne : mkpath (l ++ [a]) ≠ [] := by
    cases l <;> simp [mkpath]
  have hcne : l ++ [a] ≠ [] := by simp
  have hnot := snoc_not_mem_inits_tail l a
  have ha := hdot a (by simp)
  have hl : dir_resolve { dirs := l.inits.tail } [] l = some l := by
    have := dir_resolve_inits l [] (fun s hs => hdot s (by simp [hs]))
    simpa using this
  have hone : dir_resolve { dirs := l.inits.tail } l [a] = none := by
    simp only [dir_resolve, ha.1, ha.2, if_false, hnot]
  constructor
  · simp only [dir_exists, hne, if_false, hc, dir_resolve_snoc, hl, Option.some_bind, hone,
      Option.isSome_none]
  · simp only [my_mkdir, hne, hc, hcne, or_self, if_false, List.dropLast_concat, hl,
      List.getLastD_concat, ha.1, ha.2, hnot, inits_tail_snoc]

theorem mkpath_snoc (l : List (List Nat)) (a : List Nat) :
    mkpath (l ++ [a]) = mkpath l ++ 47 :: a := by
  rw [mkpath_append]
  simp [mkpath]

/-- The byte in front of the separator that follows a well-formed component is
no separator. -/
theorem mkpath_last (l : List (List Nat)) (a Y : List Nat) (ha : a ≠ [] ∧ PATH_SEPC ∉ a) :
    (mkpath (l ++ [a]) ++ Y).getD ((mkpath (l ++ [a])).length - 1) 0 ≠ PATH_SEPC := by
  obtain ⟨b, c, rfl⟩ : ∃ b c, a = b ++ [c] := by
    rcases List.eq_nil_or_concat a with h | ⟨b, c, h⟩
    · exact absurd h ha.1
    · exact ⟨b, c, by rw [h, List.concat_eq_append]⟩
  have hc : c ≠ PATH_SEPC := fun e => ha.2 (by simp [e])
  have e1 : mkpath (l ++ [b ++ [c]]) ++ Y = (mkpath l ++ 47 :: b) ++ c :: Y := by
    rw [mkpath_snoc]
    simp
  have e2 : (mkpath (l ++ [b ++ [c]])).length - 1 = (mkpath l ++ 47 :: b).length := by
    rw [mkpath_snoc]
    simp
  rw [e1, e2, List.getD_eq_getElem?_getD, List.getElem?_append_right (le_refl _)]
  simpa using hc

/-- At the separator behind the component `a`: the parent `l ++ [a]` fits the
scratch array, does not exist, and is created. -/
theorem dir_create_walk_sep (l : List (List Nat)) (a cs : List Nat)
    (hg : ∀ s ∈ l ++ [a], s ≠ [] ∧ PATH_SEPC ∉ s)
    (hdot : ∀ s ∈ l ++ [a], s ≠ [46] ∧ s ≠ [46, 46])
    (hk : (mkpath (l ++ [a])).length ≤ 511) :
    dir_create_walk (mkpath (l ++ [a]) ++ 47 :: cs) (47 :: cs) (mkpath (l ++ [a])).length
        { dirs := l.inits.tail }
      = dir_create_walk (mkpath (l ++ [a]) ++ 47 :: cs) cs ((mkpath (l ++ [a])).length + 1)
        { dirs := (l ++ [a]).inits.tail } := by
  have ha := hg a (by simp)
  have hlast := mkpath_last l a (47 :: cs) ha
  have hpos : (mkpath (l ++ [a])).length ≠ 0 := by
    rw [mkpath_snoc]; simp
  have h47 : (47 : Nat) = PATH_SEPC := rfl
  have hguard : ¬ ((mkpath (l ++ [a])).length - 1 > 512) := by omega
  have hmin : Nat.min (mkpath (l ++ [a]) ++ 47 :: cs).length ((mkpath (l ++ [a])).length + 1 - 1)
      = (mkpath (l ++ [a])).length := by
    simp only [List.length_append, List.length_cons, Nat.add_sub_cancel]
    exact Nat.min_eq_right (by omega)
  have hcopy : my_strcpy 512 (mkpath (l ++ [a]) ++ 47 :: cs) ((mkpath (l ++ [a])).length + 1)
      = Outcome.ok (mkpath (l ++ [a])) := by
    have h1 : (mkpath (l ++ [a])).length + 1 ≠ 0 := by omega
    have h2 : (mkpath (l ++ [a])).length + 1 ≤ 512 := by omega
    simp only [my_strcpy, h1, if_false, hmin, h2, if_true, List.take_left]
  obtain ⟨hex, hmk⟩ := my_mkdir_next l a hg hdot
  rw [dir_create_walk, if_pos h47]
  simp only [hpos, if_false, hlast, hguard, hcopy, hex, hmk, ne_eq,
    not_true_eq_false, Bool.false_eq_true]

/-- The walk from behind a component to the end of the path creates every
directory that is left to create and returns `true`. -/
theorem dir_create_walk_rest :
    ∀ (todo : List (List Nat)) (l : List (List Nat)) (a : List Nat),
      (∀ s ∈ l ++ a :: todo, s ≠ [] ∧ PATH_SEPC ∉ s) →
      (∀ s ∈ l ++ a :: todo, s ≠ [46] ∧ s ≠ [46, 46]) →
      (todo ≠ [] → (mkpath (l ++ [a])).length + (mkpath todo.dropLast).length ≤ 511) →
      dir_create_walk (mkpath (l ++ a :: todo)) (mkpath todo) (mkpath (l ++ [a])).length
          { dirs := l.inits.tail }
        = Outcome.ok (true, { dirs := (l ++ a :: todo).inits.tail }) := by
  intro todo
  induction todo with
  | nil =>
    intro l a hg hdot _
    obtain ⟨_, hmk⟩ := my_mkdir_next l a hg hdot
    simp only [mkpath, dir_create_walk, hmk, decide_True]
  | cons s ts ih =>
    intro l a hg hdot hlen
    have hga : ∀ t ∈ l ++ [a], t ≠ [] ∧ PATH_SEPC ∉ t := by
      intro t ht
      apply hg t
      simp only [List.mem_append, List.mem_singleton, List.mem_cons] at ht ⊢
      tauto
    have hda : ∀ t ∈ l ++ [a], t ≠ [46] ∧ t ≠ [46, 46] := by
      intro t ht
      apply hdot t
      simp only [List.mem_append, List.mem_singleton, List.mem_cons] at ht ⊢
      tauto
    have hs : s ≠ [] ∧ PATH_SEPC ∉ s := hg s (by simp)
    have hbound := hlen (by simp)
    have hpath : mkpath (l ++ a :: s :: ts) = mkpath (l ++ [a]) ++ 47 :: (s ++ mkpath ts) := by
      have : l ++ a :: s :: ts = (l ++ [a]) ++ s :: ts := by simp
      rw [this, mkpath_append]
      simp [mkpath]
    have hstep := dir_create_walk_sep l a (s ++ mkpath ts) hga hda (by omega)
    have hlen2 : (mkpath (l ++ [a])).length + 1 + s.length = (mkpath ((l ++ [a]) ++ [s])).length := by
      rw [mkpath_snoc (l ++ [a]) s]
      simp
      omega
    have hih := ih (l ++ [a]) s
      (by
        intro t ht
        apply hg t
        simp only [List.mem_append, List.mem_singleton, List.mem_cons] at ht ⊢
        tauto)
      (by
        intro t ht
        apply hdot t
        simp only [List.mem_append, List.mem_singleton, List.mem_cons] at ht ⊢
        tauto)
      (by
        intro hts
        have hd : (s :: ts).dropLast = s :: ts.dropLast := by
          cases ts with
          | nil => exact absurd rfl hts
          | cons t ts => rfl
        rw [hd] at hbound
        simp only [mkpath, List.length_cons, List.length_append] at hbound
        rw [← hlen2]
        omega)
    have hpath2 : mkpath ((l ++ [a]) ++ s :: ts) = mkpath (l ++ a :: s :: ts) := by simp
    have hres : (l ++ [a]) ++ s :: ts = l ++ a :: s :: ts := by simp
    rw [hpath2, hres] at hih
    have hm : mkpath (s :: ts) = 47 :: (s ++ mkpath ts) := rfl
    rw [hm]
    conv_lhs => rw [hpath]
    rw [hstep, dir_create_walk_seg _ s (mkpath ts) hs.2, hlen2, ← hpath]
    exact hih

/-- A directory that is a non-empty prefix of `segs` exists once all of them
have been created. -/
theorem dir_exists_prefix (segs : List (List Nat)) (hg : ∀ s ∈ segs, s ≠ [] ∧ PATH_SEPC ∉ s)
    (hdot : ∀ s ∈ segs, s ≠ [46] ∧ s ≠ [46, 46])
    (j : Nat) (h1 : 1 ≤ j) (h2 : j ≤ segs.length) :
    dir_exists { dirs := segs.inits.tail } (mkpath (segs.take j)) = true := by
  have hgt : ∀ s ∈ segs.take j, s ≠ [] ∧ PATH_SEPC ∉ s :=
    fun s hs => hg s (List.mem_of_mem_take hs)
  have hc := path_components_mkpath (segs.take j) hgt
  have hne : segs.take j ≠ [] := by
    intro h
    have := congrArg List.length h
    simp only [List.length_take, List.length_nil] at this
    omega
  have hpne : mkpath (segs.take j) ≠ [] := by
    cases hst : segs.take j with
    | nil => exact absurd hst hne
    | cons s ss => exact mkpath_ne_nil s ss
  have hres := dir_resolve_plain { dirs := segs.inits.tail } (segs.take j) []
    (fun s hs => hdot s (List.mem_of_mem_take hs))
    (by
      intro i hi
      have hne1 : (segs.take j).take (i + 1) ≠ [] := by
        intro h
        have := congrArg List.length h
        simp only [List.length_take, List.length_nil] at this hi
        omega
      exact mem_inits_tail_of_prefix _ segs hne1
        ((List.take_prefix _ _).trans (List.take_prefix j segs)))
  simp only [dir_exists, hpne, if_false, hc, hres, Option.isSome_some]

/-- C10 (amended): for every absolute path without doubled or trailing
separator, given by its components `segs` (each not empty and without a
separator), none of which is `.` or `..`, whose parent is at most 511 bytes
long, on a file system that holds the root only, `dir_create` creates every
prefix directory and the path itself and returns `true`; a second `dir_create`
on the path returns `true` and leaves the directories unchanged. -/
theorem C10_dir_create_all (segs : List (List Nat)) (hne : segs ≠ [])
    (hg : ∀ s ∈ segs, s ≠ [] ∧ PATH_SEPC ∉ s)
    (hdot : ∀ s ∈ segs, s ≠ [46] ∧ s ≠ [46, 46])
    (hlen : (mkpath segs.dropLast).length ≤ 511) :
    dir_create { dirs := [] } (mkpath segs)
      = Outcome.ok (true, { dirs := segs.inits.tail }) ∧
    (∀ j, 1 ≤ j → j ≤ segs.length →
      dir_exists { dirs := segs.inits.tail } (mkpath (segs.take j)) = true) ∧
    dir_create { dirs := segs.inits.tail } (mkpath segs)
      = Outcome.ok (true, { dirs := segs.inits.tail }) := by
  have hall := dir_exists_prefix segs hg hdot
  have hself : dir_exists { dirs := segs.inits.tail } (mkpath segs) = true := by
    have h := hall segs.length (by
      cases segs with
      | nil => exact absurd rfl hne
      | cons a t => simp) (le_refl _)
    rwa [List.take_length] at h
  refine ⟨?_, hall, ?_⟩
  · cases segs with
    | nil => exact absurd rfl hne
    | cons a todo =>
      have ha : a ≠ [] ∧ PATH_SEPC ∉ a := hg a (List.mem_cons_self _ _)
      have had : a ≠ [46] ∧ a ≠ [46, 46] := hdot a (List.mem_cons_self _ _)
      have hc := path_components_mkpath (a :: todo) hg
      have hnex : dir_exists { dirs := [] } (mkpath (a :: todo)) = false := by
        simp only [dir_exists, mkpath_ne_nil, if_false, hc, dir_resolve, had.1, had.2,
          List.not_mem_nil, Option.isSome_none]
      have h47 : (47 : Nat) = PATH_SEPC := rfl
      have hk : (mkpath ([] ++ [a])).length = 0 + 1 + a.length := by
        simp [mkpath]
        omega
      have hrest := dir_create_walk_rest todo [] a (by simpa using hg) (by simpa using hdot)
        (by
          intro ht
          have hd : (a :: todo).dropLast = a :: todo.dropLast := by
            cases todo with
            | nil => exact absurd rfl ht
            | cons t ts => rfl
          rw [hd] at hlen
          simp only [mkpath, List.length_cons, List.length_append] at hlen
          rw [hk]
          omega)
      simp only [List.nil_append] at hrest
      have hinit : ([] : List (List (List Nat))) = (([] : List (List Nat)).inits).tail := rfl
      have hm : mkpath (a :: todo) = 47 :: (a ++ mkpath todo) := rfl
      simp only [dir_create, hnex, Bool.false_eq_true, if_false]
      conv_lhs => arg 2; rw [hm]
      rw [dir_create_walk, if_pos h47, if_pos rfl, dir_create_walk_seg _ a (mkpath todo) ha.2,
        ← hk, hinit]
      exact hrest
  · simp only [dir_create, hself, if_true]

/-- C10 at `/tmp/x/y/z`: the three parents and the path itself are created,
and the second call changes nothing. -/
theorem C10_witness :
    dir_create { dirs := [] } [47, 116, 109, 112, 47, 120, 47, 121, 47, 122]
      = Outcome.ok (true, { dirs := [[[116, 109, 112]], [[116, 109, 112], [120]],
          [[116, 109, 112], [120], [121]], [[116, 109, 112], [120], [121], [122]]] }) ∧
    (∀ j, 1 ≤ j → j ≤ segs_tmp_x_y_z.length →
      dir_exists { dirs := segs_tmp_x_y_z.inits.tail } (mkpath (segs_tmp_x_y_z.take j)) = true) ∧
    dir_create { dirs := segs_tmp_x_y_z.inits.tail } (mkpath segs_tmp_x_y_z)
      = Outcome.ok (true, { dirs := segs_tmp_x_y_z.inits.tail }) :=
  C10_dir_create_all segs_tmp_x_y_z (by decide) (by decide) (by decide) (by decide)

set_option maxRecDepth 1000000 in
/-- C10 (counterexample): `/aa...a/aa...a/aa...a/b` with three components of
200 bytes is absolute, has no doubled and no trailing separator, and none of
its components exists; its parent is 603 bytes long.  `dir_create` creates the
first two directories, meets the guard `len - 1 > 512` and returns `false`:
neither the parent nor the path is created.  And on `/a/.`, also absolute and
without doubled or trailing separator, `dir_create` creates `/a`, the final
`mkdir` of `/a/.` fails, and the result is `false`. -/
theorem C10_counterexample :
    (∀ s ∈ segs_long, s ≠ [] ∧ PATH_SEPC ∉ s) ∧
    (mkpath segs_long.dropLast).length = 603 ∧
    dir_create { dirs := [] } (mkpath segs_long)
      = Outcome.ok (false, { dirs := [[List.replicate 200 97],
          [List.replicate 200 97, List.replicate 200 97]] }) ∧
    (∀ s ∈ segs_a_dot, s ≠ [] ∧ PATH_SEPC ∉ s) ∧
    mkpath segs_a_dot = [47, 97, 47, 46] ∧
    dir_exists { dirs := [] } (mkpath segs_a_dot) = false ∧
    dir_create { dirs := [] } (mkpath segs_a_dot) = Outcome.ok (false, { dirs := [[[97]]] }) := by
  decide

/-! ### `file_getl`: a carriage return without a line feed -/

/-- Stepping back by one from behind a byte lands on that byte. -/
theorem file_skip_back (f : ang_file) :
    (file_skip { f with pos := f.pos + 1 } (-1)).2 = f := by
  have h : (0 : Int) ≤ ((f.pos + 1 : Nat) : Int) + (-1) := by omega
  have h2 : (((f.pos + 1 : Nat) : Int) + (-1)).toNat = f.pos := by omega
  simp only [file_skip, h, if_true, h2]

/-- With a carriage return seen, a byte that is neither `'\r'` nor `'\n'` ends
the line and is given back to the stream. -/
theorem file_getl_loop_lone (w : FileSys) (len max_len fuel : Nat) (f : ang_file)
    (data out junk : List Nat) (b : Nat) (hw : w f.fname = some data)
    (hget : data[f.pos]? = some b) (hb13 : b ≠ 13) (hb10 : b ≠ 10)
    (hi : out.length < max_len) (hj : 0 < junk.length) :
    file_getl_loop w len max_len (fuel + 1) f (out ++ junk) out.length true
      = Outcome.ok (true, out ++ 0 :: junk.drop 1, f) := by
  rw [file_getl_loop_succ]
  simp only [hi, if_true, file_readc_at w f data b hw hget, hb13, if_false, hb10, ne_eq,
    not_false_eq_true, and_self, file_skip_back, file_getl_finish_end out junk _ _ hj]

/-- C12: for every content `c` without `'\r'` and `'\n'` whose tab expansion
has at most `len - 2` bytes and every byte `b` other than `'\n'` and `'\r'`,
reading at a stream position followed by `c`, `'\r'`, `b` and `rest` returns
`true` with the expansion of `c` and a NUL in the buffer, and `b` is not
consumed: the stream is left at `b`, and the next `file_readc` returns `b`. -/
theorem C12_file_getl_lone_cr (w : FileSys) (f : ang_file) (buf : List Nat) (len : Nat)
    (data c rest : List Nat) (b : Nat) (hw : w f.fname = some data) (hsz : len < SIZE_MOD)
    (hbuf : buf.length = len) (hd : data.drop f.pos = c ++ (13 :: b :: rest))
    (hc : ∀ x ∈ c, x ≠ 13 ∧ x ≠ 10) (hfit : (spec_expand_tabs 0 c).length + 2 ≤ len)
    (hb10 : b ≠ 10) (hb13 : b ≠ 13) :
    file_getl w f buf len
      = Outcome.ok (true,
          spec_expand_tabs 0 c ++ 0 :: buf.drop ((spec_expand_tabs 0 c).length + 1),
          { f with pos := f.pos + c.length + 1 }) ∧
    data.drop (f.pos + c.length + 1) = b :: rest ∧
    file_readc w { f with pos := f.pos + c.length + 1 }
      = some (b, { f with pos := f.pos + c.length + 1 + 1 }) := by
  have hbase := file_getl_content w f buf len data c (13 :: b :: rest) hw hsz hbuf hd hc hfit
  have htail := drop_append_left data f.pos c (13 :: b :: rest) hd
  obtain ⟨hget, hnext⟩ := drop_cons_get data (f.pos + c.length) 13 (b :: rest) htail
  have hget2 := (drop_cons_get data (f.pos + c.length + 1) b rest hnext).1
  have hj : 0 < (buf.drop (spec_expand_tabs 0 c).length).length := by
    rw [List.length_drop]; omega
  have hi : (spec_expand_tabs 0 c).length < len - 1 := by omega
  have hdd : List.drop 1 (List.drop (spec_expand_tabs 0 c).length buf)
      = List.drop ((spec_expand_tabs 0 c).length + 1) buf := by
    simp [List.drop_drop, Nat.add_comm]
  have hw1 : w ({ f with pos := f.pos + c.length } : ang_file).fname = some data := hw
  have hw2 : w ({ f with pos := f.pos + c.length + 1 } : ang_file).fname = some data := hw
  have h1 := file_getl_loop_cr w len (len - 1) (rest.length + 2)
    { f with pos := f.pos + c.length } data
    (spec_expand_tabs 0 c ++ buf.drop (spec_expand_tabs 0 c).length)
    (spec_expand_tabs 0 c).length false hw1 hget hi
  have h2 := file_getl_loop_lone w len (len - 1) (rest.length + 1)
    { f with pos := f.pos + c.length + 1 } data (spec_expand_tabs 0 c)
    (buf.drop (spec_expand_tabs 0 c).length) b hw2 hget2 hb13 hb10 hi hj
  have hf : (13 :: b :: rest).length + 1 = (rest.length + 2) + 1 := by simp
  refine ⟨?_, hnext, file_readc_at w _ data b hw2 hget2⟩
  rw [hbase, hf, h1, h2, hdd]

/-- C12 at the bytes `a`, TAB, `b`, CR, `c`, `d` with capacity 8: the line read
is `"a   b"`, the stream is left at `c`, and the next call reads `"cd"`. -/
theorem C12_witness :
    (file_getl (one_file [97, 9, 98, 13, 99, 100]) (handle_at 0) (List.replicate 8 255) 8
        = Outcome.ok (true, [97, 32, 32, 32, 98, 0, 255, 255], handle_at 4) ∧
      List.drop 4 [97, 9, 98, 13, 99, 100] = [99, 100] ∧
      file_readc (one_file [97, 9, 98, 13, 99, 100]) (handle_at 4) = some (99, handle_at 5)) ∧
    file_getl (one_file [97, 9, 98, 13, 99, 100]) (handle_at 4) (List.replicate 8 255) 8
      = Outcome.ok (true, [99, 100, 0, 255, 255, 255, 255, 255], handle_at 6) :=
  ⟨C12_file_getl_lone_cr (one_file [97, 9, 98, 13, 99, 100]) (handle_at 0)
      (List.replicate 8 255) 8 [97, 9, 98, 13, 99, 100] [97, 9, 98] [100] 99
      (by decide) (by decide) (by decide) (by decide) (by decide) (by decide) (by decide)
      (by decide),
    by decide⟩

/-! ### `file_copy` -/

theorem take_chunk (content : List Nat) (pos n : Nat) :
    content.take pos ++ ((content.drop pos).take n)
      = content.take (pos + ((content.drop pos).take n).length) := by
  have h1 : (content.drop pos).take ((content.drop pos).take n).length
      = (content.drop pos).take n := by
    rw [List.length_take]
    rcases Nat.le_total n (content.drop pos).length with h | h
    · rw [Nat.min_eq_left h]
    · rw [Nat.min_eq_right h, List.take_length, List.take_of_length_le h]
  rw [List.take_add, h1]

/-- The bytes that `file_read` transfers from a file with the content
`content`. -/
theorem file_read_bytes_eq (w : FileSys) (f : ang_file) (content : List Nat) (n : Nat)
    (hw : w f.fname = some content) :
    file_read_bytes w f n = (content.drop f.pos).take n := by
  simp only [file_read_bytes, hw, Option.getD_some]

theorem copy_buf_length : copy_buf.length = 1024 := List.length_replicate _ _

/-- At the end of an empty file `file_read` stores nothing; it returns 0 in the
stdio build and `(size_t)-1` in the `USE_SDL_RWOPS` build. -/
theorem file_read_empty (sdl : Bool) (w : FileSys) (f : ang_file) (buf : List Nat) (n : Nat)
    (hw : w f.fname = some []) :
    file_read sdl w f buf n
      = Outcome.ok (if sdl = true then SIZE_MOD - 1 else 0, buf, f) := by
  have hb : file_read_bytes w f n = [] := by
    simp only [file_read_bytes, hw, Option.getD_some, List.drop_nil, List.take_nil]
  have h0 : ¬ (0 > buf.length) := by omega
  cases sdl <;>
    simp only [file_read, hb, List.length_nil, h0, if_false, List.nil_append, List.drop_zero,
      Nat.add_zero, and_self, if_true, Bool.false_eq_true, false_and]

/-- A pass of the copy loop that reads `n ≠ 0` bytes and writes them. -/
theorem file_copy_loop_step (sdl : Bool) (fuel : Nat) (w w1 : FileSys)
    (sfile sfile1 dfile dfile1 : ang_file) (buf buf1 : List Nat) (n : Nat)
    (hr : file_read sdl w sfile buf 1024 = Outcome.ok (n, buf1, sfile1)) (hn : n ≠ 0)
    (hw : file_write w dfile buf1 n = Outcome.ok (true, w1, dfile1)) :
    file_copy_loop sdl (fuel + 1) w sfile dfile buf
      = file_copy_loop sdl fuel w1 sfile1 dfile1 buf1 := by
  rw [file_copy_loop, hr]
  simp only [hn, if_false, hw, Bool.true_eq_false]

/-- A pass of the copy loop in which `file_read` returns 0 ends the loop. -/
theorem file_copy_loop_end (sdl : Bool) (fuel : Nat) (w : FileSys)
    (sfile sfile1 dfile : ang_file) (buf buf1 : List Nat)
    (hr : file_read sdl w sfile buf 1024 = Outcome.ok (0, buf1, sfile1)) :
    file_copy_loop sdl (fuel + 1) w sfile dfile buf = Outcome.ok w := by
  rw [file_copy_loop, hr]
  simp only [if_true]

/-- A pass of the copy loop in which `file_read` returns a count that the
array does not hold ends in an access outside the array. -/
theorem file_copy_loop_over (sdl : Bool) (fuel : Nat) (w : FileSys)
    (sfile sfile1 dfile : ang_file) (buf buf1 : List Nat) (n : Nat)
    (hr : file_read sdl w sfile buf 1024 = Outcome.ok (n, buf1, sfile1)) (hn : n ≠ 0)
    (hover : n > buf1.length) :
    file_copy_loop sdl (fuel + 1) w sfile dfile buf = Outcome.fault := by
  rw [file_copy_loop, hr]
  simp only [hn, if_false, file_write, hover, if_true]

/-- The copy loop on two different files, with the first `pos` bytes of the
source already in the destination and both offsets at `pos`.  In the stdio
build the loop ends with the whole source content in the destination and
touches no other file.  In the `USE_SDL_RWOPS` build the read at the end of the
source returns `(size_t)-1` and the loop goes into `file_write` with that count,
which takes bytes beyond the array `buf`. -/
theorem file_copy_loop_distinct (sdl : Bool) (content s t : List Nat) (hst : s ≠ t) :
    ∀ (fuel : Nat) (w : FileSys) (sfile dfile : ang_file) (buf : List Nat),
      sfile.fname = s → dfile.fname = t → dfile.mode = file_mode.MODE_WRITE →
      buf.length = 1024 →
      w s = some content → w t = some (content.take sfile.pos) → dfile.pos = sfile.pos →
      sfile.pos ≤ content.length → content.length - sfile.pos < fuel →
      ∃ w1, file_copy_loop sdl fuel w sfile dfile buf
          = (if sdl = true then Outcome.fault else Outcome.ok w1) ∧
        w1 t = some content ∧ ∀ p, p ≠ t → w1 p = w p := by
  intro fuel
  induction fuel with
  | zero => intro w sfile dfile buf _ _ _ _ _ _ _ _ h; omega
  | succ fuel ih =>
    intro w sfile dfile buf hs ht hmode hbuf hws hwt hpos hle hfuel
    have hws1 : w sfile.fname = some content := by rw [hs]; exact hws
    have hwt1 : w dfile.fname = some (content.take sfile.pos) := by rw [ht]; exact hwt
    have hbytes := file_read_bytes_eq w sfile content 1024 hws1
    have hblen : ((content.drop sfile.pos).take 1024).length ≤ 1024 := by
      rw [List.length_take]
      exact Nat.min_le_left _ _
    have hnot : ¬ (((content.drop sfile.pos).take 1024).length > buf.length) := by omega
    have hread : file_read sdl w sfile buf 1024
        = Outcome.ok
            (if sdl = true ∧ ((content.drop sfile.pos).take 1024).length = 0 then SIZE_MOD - 1
              else ((content.drop sfile.pos).take 1024).length,
             (content.drop sfile.pos).take 1024
               ++ buf.drop ((content.drop sfile.pos).take 1024).length,
             { sfile with pos := sfile.pos + ((content.drop sfile.pos).take 1024).length }) := by
      simp only [file_read, hbytes, hnot, if_false]
    by_cases hn : ((content.drop sfile.pos).take 1024).length = 0
    · have hlen : content.length ≤ sfile.pos := by
        simp only [List.length_take, List.length_drop] at hn
        omega
      refine ⟨w, ?_, by rw [hwt, List.take_of_length_le hlen], fun p _ => rfl⟩
      cases sdl with
      | false =>
        have hc : ¬ (false = true ∧ ((content.drop sfile.pos).take 1024).length = 0) := by
          simp
        rw [if_neg hc, hn] at hread
        rw [file_copy_loop_end false fuel w sfile _ dfile buf _ hread]
        simp
      | true =>
        have hc : (true = true ∧ ((content.drop sfile.pos).take 1024).length = 0) := ⟨rfl, hn⟩
        rw [if_pos hc] at hread
        rw [file_copy_loop_over true fuel w sfile _ dfile buf _ _ hread (by decide)
          (by
            simp only [List.length_append, List.length_drop, hn, Nat.zero_add, Nat.sub_zero,
              hbuf]
            decide)]
        simp
    · have hnread : ¬ (sdl = true ∧ ((content.drop sfile.pos).take 1024).length = 0) :=
        fun h => hn h.2
      rw [if_neg hnread] at hread
      have hnapp : ¬ (dfile.mode = file_mode.MODE_APPEND) := by rw [hmode]; decide
      have hnrd : ¬ (dfile.mode = file_mode.MODE_READ) := by rw [hmode]; decide
      have hfits : ¬ (((content.drop sfile.pos).take 1024).length
          > ((content.drop sfile.pos).take 1024
            ++ buf.drop ((content.drop sfile.pos).take 1024).length).length) := by
        simp only [List.length_append]
        omega
      have htl : (content.take sfile.pos).length = sfile.pos := by
        rw [List.length_take]
        exact Nat.min_eq_left hle
      have hdrop : (content.take sfile.pos).drop
          (sfile.pos + ((content.drop sfile.pos).take 1024).length) = [] := by
        apply List.drop_eq_nil_of_le
        rw [htl]
        omega
      have hnew : (content.take sfile.pos).take dfile.pos
          ++ List.replicate (dfile.pos - (content.take sfile.pos).length) 0
          ++ ((content.drop sfile.pos).take 1024
              ++ buf.drop ((content.drop sfile.pos).take 1024).length).take
                ((content.drop sfile.pos).take 1024).length
          ++ (content.take sfile.pos).drop
            (dfile.pos + ((content.drop sfile.pos).take 1024).length)
          = content.take (sfile.pos + ((content.drop sfile.pos).take 1024).length) := by
        rw [hpos, htl, Nat.sub_self, List.take_take, Nat.min_self, hdrop,
          List.take_left' rfl, ← take_chunk]
        simp
      have hwrite : file_write w dfile ((content.drop sfile.pos).take 1024
            ++ buf.drop ((content.drop sfile.pos).take 1024).length)
          ((content.drop sfile.pos).take 1024).length
          = Outcome.ok (true, fs_set w t
              (content.take (sfile.pos + ((content.drop sfile.pos).take 1024).length)),
             { dfile with pos := dfile.pos + ((content.drop sfile.pos).take 1024).length }) := by
        simp only [file_write, hfits, if_false, hnrd, hwt1, hnapp, hnew]
        rw [ht]
      rw [file_copy_loop_step sdl fuel w _ sfile _ dfile _ buf _ _ hread hn hwrite]
      have hpos1 : 0 < ((content.drop sfile.pos).take 1024).length := Nat.pos_of_ne_zero hn
      have hbound : ((content.drop sfile.pos).take 1024).length ≤ content.length - sfile.pos := by
        rw [List.length_take, List.length_drop]
        exact Nat.min_le_right _ _
      have hst' : ¬ (s = t) := hst
      obtain ⟨w1, h1, h2, h3⟩ := ih
        (fs_set w t (content.take (sfile.pos + ((content.drop sfile.pos).take 1024).length)))
        { sfile with pos := sfile.pos + ((content.drop sfile.pos).take 1024).length }
        { dfile with pos := dfile.pos + ((content.drop sfile.pos).take 1024).length }
        ((content.drop sfile.pos).take 1024
          ++ buf.drop ((content.drop sfile.pos).take 1024).length)
        hs ht hmode
        (by simp only [List.length_append, List.length_drop]; omega)
        (by simp only [fs_set, hst', if_false]; exact hws)
        (by simp only [fs_set, if_true])
        (by simp only [hpos])
        (by simp only; omega)
        (by simp only; omega)
      refine ⟨w1, h1, h2, ?_⟩
      intro p hp
      rw [h3 p hp]
      simp only [fs_set, hp, if_false]

/-- Opening an existing file for reading gives a handle at offset 0, in both
builds. -/
theorem file_open_read_ok (sdl : Bool) (d : DirSys) (w : FileSys) (path key c : List Nat)
    (ftype : file_type) (hk : file_locate d (path_parse 1024 path) = some key)
    (hw : w key = some c) :
    file_open sdl d w path file_mode.MODE_READ ftype
      = (some { fname := key, mode := file_mode.MODE_READ, pos := 0 }, w) := by
  cases sdl <;>
    simp only [file_open, file_open_fh, sys_fopen, sdl_rwm, hk, hw, if_true, if_false,
      Bool.false_eq_true]

/-- Opening for writing creates or empties the file, unless it is a save file
that exists and the build is the stdio build. -/
theorem file_open_write_ok (sdl : Bool) (d : DirSys) (w : FileSys) (path key : List Nat)
    (ftype : file_type) (hk : file_locate d (path_parse 1024 path) = some key)
    (h : sdl = true ∨ ftype ≠ file_type.FTYPE_SAVE ∨ w key = none) :
    file_open sdl d w path file_mode.MODE_WRITE ftype
      = (some { fname := key, mode := file_mode.MODE_WRITE, pos := 0 }, fs_set w key []) := by
  cases sdl with
  | true => simp only [file_open, file_open_fh, sys_fopen, sdl_rwm, hk, if_true]
  | false =>
    by_cases hft : ftype = file_type.FTYPE_SAVE
    · have hn : w key = none := by
        rcases h with h | h | h
        · cases h
        · exact absurd hft h
        · exact h
      simp only [file_open, file_open_fh, sys_open_excl, hk, hft, hn, if_true, if_false,
        Bool.false_eq_true]
    · simp only [file_open, file_open_fh, sys_fopen, hk, hft, if_false, Bool.false_eq_true]

/-- The stdio build on two different files: when the source exists and the
destination opens, `file_copy` returns `true`, the destination holds the source
content, the source is unchanged and no other file is touched. -/
theorem file_copy_stdio_distinct (d : DirSys) (w : FileSys) (src dst : List Nat)
    (ftype : file_type) (ks kd content : List Nat)
    (hs : file_locate d (path_parse 1024 src) = some ks) (hsrc : w ks = some content)
    (hd : file_locate d (path_parse 1024 dst) = some kd)
    (hdst : ftype = file_type.FTYPE_SAVE → w kd = none) (hne : ks ≠ kd) :
    ∃ w1, file_copy false d w src dst ftype = Outcome.ok (true, w1) ∧
      w1 kd = some content ∧ w1 ks = some content ∧ ∀ p, p ≠ kd → w1 p = w p := by
  have hopen_s := file_open_read_ok false d w src ks content ftype hs hsrc
  have hopen_d := file_open_write_ok false d w dst kd ftype hd
    (by
      by_cases hft : ftype = file_type.FTYPE_SAVE
      · exact Or.inr (Or.inr (hdst hft))
      · exact Or.inr (Or.inl hft))
  have hne' : ¬ (ks = kd) := hne
  have hrem : file_remaining (fs_set w kd [])
      { fname := ks, mode := file_mode.MODE_READ, pos := 0 } = content.length := by
    simp only [file_remaining, fs_set, hne', if_false, hsrc, Nat.sub_zero]
  obtain ⟨w1, h1, h2, h3⟩ := file_copy_loop_distinct false content ks kd hne
    (content.length + 1) (fs_set w kd [])
    { fname := ks, mode := file_mode.MODE_READ, pos := 0 }
    { fname := kd, mode := file_mode.MODE_WRITE, pos := 0 } copy_buf
    rfl rfl rfl copy_buf_length
    (by simp only [fs_set, hne', if_false]; exact hsrc)
    (by simp only [fs_set, if_true, List.take_zero])
    rfl (Nat.zero_le _) (by simp only; omega)
  have hsrc1 : w1 ks = some content := by
    rw [h3 _ hne]
    simp only [fs_set, hne', if_false]
    exact hsrc
  refine ⟨w1, ?_, h2, hsrc1, ?_⟩
  · simp only [Bool.false_eq_true, if_false] at h1
    simp only [file_copy, hopen_s, hopen_d, hrem, h1]
  · intro p hp
    rw [h3 p hp]
    simp only [fs_set, hp, if_false]

/-- The stdio build on one file: a copy of a file onto itself, when it is no
save file, returns `true` and leaves the file empty. -/
theorem file_copy_stdio_self (d : DirSys) (w : FileSys) (src dst : List Nat)
    (ftype : file_type) (k content : List Nat)
    (hs : file_locate d (path_parse 1024 src) = some k) (hsrc : w k = some content)
    (hd : file_locate d (path_parse 1024 dst) = some k)
    (hft : ftype ≠ file_type.FTYPE_SAVE) :
    file_copy false d w src dst ftype = Outcome.ok (true, fs_set w k []) := by
  have hopen_s := file_open_read_ok false d w src k content ftype hs hsrc
  have hopen_d := file_open_write_ok false d w dst k ftype hd (Or.inr (Or.inl hft))
  have hrem : file_remaining (fs_set w k [])
      { fname := k, mode := file_mode.MODE_READ, pos := 0 } = 0 := by
    simp only [file_remaining, fs_set, if_true, List.length_nil, Nat.sub_self]
  have hread := file_read_empty false (fs_set w k [])
    { fname := k, mode := file_mode.MODE_READ, pos := 0 } copy_buf 1024
    (by simp only [fs_set, if_true])
  rw [if_neg (by decide)] at hread
  simp only [file_copy, hopen_s, hopen_d, hrem, Nat.zero_add,
    file_copy_loop_end false 0 _ _ _ _ _ _ hread]

/-- C9 (code defect): in the `USE_SDL_RWOPS` build, whenever both files open
(the source exists and the destination can be created), `file_copy` does not
return with the source content in the destination: at the end of the source
`file_read` returns `(size_t)-1`, not 0, the loop goes on, and `file_write` is
called with that count on the 1024-byte array.  This holds for every source
content, the empty one included. -/
theorem C9_file_copy_sdl_end_of_file (d : DirSys) (w : FileSys) (src dst : List Nat)
    (ftype : file_type) (ks kd content : List Nat)
    (hs : file_locate d (path_parse 1024 src) = some ks) (hsrc : w ks = some content)
    (hd : file_locate d (path_parse 1024 dst) = some kd) :
    file_copy true d w src dst ftype = Outcome.fault := by
  have hopen_s := file_open_read_ok true d w src ks content ftype hs hsrc
  have hopen_d := file_open_write_ok true d w dst kd ftype hd (Or.inl rfl)
  by_cases hne : ks = kd
  · subst hne
    have hrem : file_remaining (fs_set w ks [])
        { fname := ks, mode := file_mode.MODE_READ, pos := 0 } = 0 := by
      simp only [file_remaining, fs_set, if_true, List.length_nil, Nat.sub_self]
    have hread := file_read_empty true (fs_set w ks [])
      { fname := ks, mode := file_mode.MODE_READ, pos := 0 } copy_buf 1024
      (by simp only [fs_set, if_true])
    rw [if_pos rfl] at hread
    simp only [file_copy, hopen_s, hopen_d, hrem, Nat.zero_add,
      file_copy_loop_over true 0 _ _ _ _ _ _ _ hread (by decide)
        (by rw [copy_buf_length]; decide)]
  · have hne' : ¬ (ks = kd) := hne
    have hrem : file_remaining (fs_set w kd [])
        { fname := ks, mode := file_mode.MODE_READ, pos := 0 } = content.length := by
      simp only [file_remaining, fs_set, hne', if_false, hsrc, Nat.sub_zero]
    obtain ⟨w1, h1, _, _⟩ := file_copy_loop_distinct true content ks kd hne
      (content.length + 1) (fs_set w kd [])
      { fname := ks, mode := file_mode.MODE_READ, pos := 0 }
      { fname := kd, mode := file_mode.MODE_WRITE, pos := 0 } copy_buf
      rfl rfl rfl copy_buf_length
      (by simp only [fs_set, hne', if_false]; exact hsrc)
      (by simp only [fs_set, if_true, List.take_zero])
      rfl (Nat.zero_le _) (by simp only; omega)
    simp only [if_true] at h1
    simp only [file_copy, hopen_s, hopen_d, hrem, h1]

set_option maxRecDepth 100000 in
/-- C9 at the copy of `/tmp/s`, of three bytes, to `/tmp/t`: the
`USE_SDL_RWOPS` build ends in the access outside the array, where the stdio
build returns `true` with the three bytes in `/tmp/t`; the same holds for an
empty source, and the `USE_SDL_RWOPS` build also fails on a source of 2500
bytes. -/
theorem C9_witness :
    file_copy true dirs_tmp (fs_tmp_s [1, 2, 3]) path_tmp_s path_tmp_t file_type.FTYPE_TEXT
      = Outcome.fault ∧
    copy_result (file_copy false dirs_tmp (fs_tmp_s [1, 2, 3]) path_tmp_s path_tmp_t
      file_type.FTYPE_TEXT) path_tmp_t = Outcome.ok (true, some [1, 2, 3]) ∧
    file_copy true dirs_tmp (fs_tmp_s []) path_tmp_s path_tmp_t file_type.FTYPE_TEXT
      = Outcome.fault ∧
    copy_result (file_copy false dirs_tmp (fs_tmp_s []) path_tmp_s path_tmp_t
      file_type.FTYPE_TEXT) path_tmp_t = Outcome.ok (true, some []) ∧
    file_copy true dirs_tmp (fs_tmp_s (List.replicate 2500 7)) path_tmp_s path_tmp_t
      file_type.FTYPE_TEXT = Outcome.fault :=
  ⟨C9_file_copy_sdl_end_of_file dirs_tmp (fs_tmp_s [1, 2, 3]) path_tmp_s path_tmp_t
      file_type.FTYPE_TEXT path_tmp_s path_tmp_t [1, 2, 3] (by decide) (by decide) (by decide),
    by decide,
    C9_file_copy_sdl_end_of_file dirs_tmp (fs_tmp_s []) path_tmp_s path_tmp_t
      file_type.FTYPE_TEXT path_tmp_s path_tmp_t [] (by decide) (by decide) (by decide),
    by decide,
    C9_file_copy_sdl_end_of_file dirs_tmp (fs_tmp_s (List.replicate 2500 7)) path_tmp_s
      path_tmp_t file_type.FTYPE_TEXT path_tmp_s path_tmp_t (List.replicate 2500 7)
      (by decide) rfl (by decide)⟩

/-- The stdio build at the copy of `/tmp/s`, of 2500 bytes, to `/tmp/t`, and at
the copy of `/tmp/s` onto itself through the path `/tmp//s`. -/
theorem file_copy_stdio_examples :
    (∃ w1, file_copy false dirs_tmp (fs_tmp_s (List.replicate 2500 7)) path_tmp_s path_tmp_t
        file_type.FTYPE_TEXT = Outcome.ok (true, w1) ∧
      w1 path_tmp_t = some (List.replicate 2500 7) ∧
      w1 path_tmp_s = some (List.replicate 2500 7) ∧
      ∀ p, p ≠ path_tmp_t → w1 p = fs_tmp_s (List.replicate 2500 7) p) ∧
    file_copy false dirs_tmp (fs_tmp_s [1, 2, 3]) path_tmp_s [47, 116, 109, 112, 47, 47, 115]
        file_type.FTYPE_TEXT
      = Outcome.ok (true, fs_set (fs_tmp_s [1, 2, 3]) path_tmp_s []) :=
  ⟨file_copy_stdio_distinct dirs_tmp (fs_tmp_s (List.replicate 2500 7)) path_tmp_s path_tmp_t
      file_type.FTYPE_TEXT path_tmp_s path_tmp_t (List.replicate 2500 7)
      (by decide) rfl (by decide) (fun h => by cases h) (by decide),
    file_copy_stdio_self dirs_tmp (fs_tmp_s [1, 2, 3]) path_tmp_s
      [47, 116, 109, 112, 47, 47, 115] file_type.FTYPE_TEXT path_tmp_s [1, 2, 3]
      (by decide) (by decide) (by decide) (by decide)⟩

/-! ### `file_open`: save files -/

/-- The `USE_SDL_RWOPS` build has no exclusive open: `file_open(path,
MODE_WRITE, FTYPE_SAVE)` on the existing file `/tmp/s` returns a handle and
empties the file. -/
theorem file_open_sdl_save_clobbers :
    file_open true dirs_tmp (fs_tmp_s [1, 2, 3]) path_tmp_s file_mode.MODE_WRITE
        file_type.FTYPE_SAVE
      = (some { fname := path_tmp_s, mode := file_mode.MODE_WRITE, pos := 0 },
          fs_set (fs_tmp_s [1, 2, 3]) path_tmp_s []) ∧
    fs_set (fs_tmp_s [1, 2, 3]) path_tmp_s [] path_tmp_s = some [] :=
  ⟨file_open_write_ok true dirs_tmp (fs_tmp_s [1, 2, 3]) path_tmp_s path_tmp_s
      file_type.FTYPE_SAVE (by decide) (Or.inl rfl), by decide⟩

end ZFile
